import Mathlib

/-!
# Verification of the myCoach agent orchestration core

This file gives a shallow embedding, in Lean 4, of the parts of the
`myCoach` backend that the specification makes claims about:

* the plan-merge algorithm
  (`backend/app/services/agent/tools/response_parser.py`,
  `ResponseParser._merge_weeks` / `_merge_single_week`),
* the structured-payload extraction
  (`ResponseParser.clean_json_string` / `parse_plan_update`),
* the orchestration state machine of `CoachAgent`
  (`backend/app/services/agent/coach.py`) together with the
  `ActionRouter` (`backend/app/services/agent/router.py`),
* the working (session) memory store
  (`backend/app/services/memory/working.py`).

Conventions of the embedding:

* JSON values (what Python's `json.loads` produces and what flows through
  the plan documents) are modelled by the inductive type `Json` below.
  Python `dict`s are modelled as association lists with unique keys in
  insertion order; `dict.get`/`d[k] = v` are modelled by `pyGet`/`setAssoc`,
  which reproduce Python's insertion-order semantics (updating an existing
  key keeps its position, a new key is appended at the end).
  Numbers are modelled as `Int` (the plan documents under merge carry
  integer week numbers; floats are outside the modelled domain).
* A Python function that can raise an exception is modelled as an
  `Option`-valued (or `Except`-valued) function, `none` meaning that the
  call raises.
* External collaborators (the text-generation backend, the database, the
  individual tool implementations, `json.loads`) are parameters of the
  embedded functions, exactly as the spec treats them (opaque interfaces).
-/

set_option linter.unusedVariables false

namespace MyCoach

/-- JSON values as produced by `json.loads`: `null`, booleans, (integer)
numbers, strings, arrays and objects.  Objects are association lists in
insertion order with unique keys, mirroring Python `dict`s. -/
inductive Json where
  | null : Json
  | bool : Bool → Json
  | num  : Int → Json
  | str  : String → Json
  | arr  : List Json → Json
  | obj  : List (String × Json) → Json
deriving Repr, Inhabited

mutual

/-- Structural equality of JSON values; models Python `==` on the values
`json.loads` produces (restricted to the modelled domain, where compared
day labels are plain JSON values without Python's bool/int coercion). -/
def jeq : Json → Json → Bool
  | Json.null, Json.null => true
  | Json.bool a, Json.bool b => a == b
  | Json.num a, Json.num b => a == b
  | Json.str a, Json.str b => a == b
  | Json.arr a, Json.arr b => jeqList a b
  | Json.obj a, Json.obj b => jeqObj a b
  | _, _ => false

/-- Elementwise `jeq` on JSON arrays. -/
def jeqList : List Json → List Json → Bool
  | [], [] => true
  | x :: xs, y :: ys => jeq x y && jeqList xs ys
  | _, _ => false

/-- Pairwise `jeq` on JSON objects (insertion order respected; the
modelled documents compare key lists in order). -/
def jeqObj : List (String × Json) → List (String × Json) → Bool
  | [], [] => true
  | (k1, v1) :: xs, (k2, v2) :: ys => k1 == k2 && jeq v1 v2 && jeqObj xs ys
  | _, _ => false

end

mutual

theorem jeq_refl : ∀ j : Json, jeq j j = true
  | Json.null => rfl
  | Json.bool b => by simp [jeq]
  | Json.num n => by simp [jeq]
  | Json.str s => by simp [jeq]
  | Json.arr xs => by simp [jeq, jeqList_refl xs]
  | Json.obj o => by simp [jeq, jeqObj_refl o]

theorem jeqList_refl : ∀ l : List Json, jeqList l l = true
  | [] => rfl
  | x :: xs => by simp [jeqList, jeq_refl x, jeqList_refl xs]

theorem jeqObj_refl : ∀ l : List (String × Json), jeqObj l l = true
  | [] => rfl
  | (k, v) :: xs => by simp [jeqObj, jeq_refl v, jeqObj_refl xs]

end

/-- `d.get(k)` on a Python dict, with the default `None` modelled as
`Json.null` (this is how `_merge_weeks`/`_merge_single_week` call it). -/
def pyGet (o : List (String × Json)) (k : String) : Json :=
  match o.lookup k with
  | some v => v
  | none => Json.null

/-- `d[k] = v` on a Python dict: replace the value of an existing key in
place (keeping its position), otherwise append the new pair at the end. -/
def setAssoc (o : List (String × Json)) (k : String) (v : Json) :
    List (String × Json) :=
  match o with
  | [] => [(k, v)]
  | (k', v') :: rest =>
    if k' = k then (k', v) :: rest else (k', v') :: setAssoc rest k v

/-- The keys of a Python dict, in insertion order. -/
def keysOf (o : List (String × Json)) : List String := o.map Prod.fst

/-!
## The plan-merge algorithm

Embedding of `ResponseParser._merge_weeks` and
`ResponseParser._merge_single_week`
(`backend/app/services/agent/tools/response_parser.py`, lines 231-282).

An `Option` result models a raised Python exception (`none` = the call
raises, e.g. `week_num - 1` on a string, or `.get` on a non-dict).
-/

/-- `idx = week_num - 1` preparation: the value of `m_week.get("weekNumber")`
as a Python integer.  `some none` models `None` (the `continue` branch),
`some (some i)` a usable integer (Python coerces `bool` to `int` here:
`True - 1 == 0`), `none` a `TypeError` (string/array/object week number). -/
def weekNumToInt : Json → Option (Option Int)
  | Json.null => some none
  | Json.num n => some (some n)
  | Json.bool b => some (some (if b then 1 else 0))
  | _ => none

/-- The inner search of `_merge_single_week`: scan `existing_days` for the
first day `d` with `d.get("day") == day_name`, returning its index
(`some (some i)`), `some none` when no day matches, and `none` when a
non-dict day is reached before a match (Python raises on `d.get`). -/
def searchDay (days : List Json) (name : Json) (i : Nat) : Option (Option Nat) :=
  match days with
  | [] => some none
  | d :: rest =>
    match d with
    | Json.obj dd =>
      if jeq (pyGet dd "day") name then some (some i)
      else searchDay rest name (i + 1)
    | _ => none

/-- The `for m_day in modified_week["days"]` loop of `_merge_single_week`:
replace the first existing day with the same label, else append. -/
def mergeDaysLoop (current : List Json) (mdays : List Json) : Option (List Json) :=
  match mdays with
  | [] => some current
  | md :: rest =>
    match md with
    | Json.obj mdd =>
      match searchDay current (pyGet mdd "day") 0 with
      | none => none
      | some (some i) => mergeDaysLoop (current.set i md) rest
      | some none => mergeDaysLoop (current ++ [md]) rest
    | _ => none

/-- `result.get("days", [])` of `_merge_single_week`, converted by `list(...)`:
an absent key gives `[]`, a JSON array gives its elements, and any other
value is outside the modelled domain (Python raises on `list(...)` or on the
subsequent `d.get`, except for the degenerate string/dict-iteration corners,
which no plan document reaches). -/
def existingDaysOf (o : List (String × Json)) : Option (List Json) :=
  match o.lookup "days" with
  | none => some []
  | some (Json.arr xs) => some xs
  | some _ => none

/-- `ResponseParser._merge_single_week` (lines 252-282): copy the existing
week, replace its summary if the modification carries one, and merge the
modified days into the existing day list. -/
def mergeSingleWeek (existing modified : List (String × Json)) :
    Option (List (String × Json)) :=
  let r1 :=
    match modified.lookup "summary" with
    | some v => setAssoc existing "summary" v
    | none => existing
  match modified.lookup "days" with
  | none => some r1
  | some (Json.arr mdays) =>
    match existingDaysOf r1 with
    | none => none
    | some edays =>
      match mergeDaysLoop edays mdays with
      | none => none
      | some merged => some (setAssoc r1 "days" (Json.arr merged))
  | some _ => none

/-- One iteration of the `for m_week in modified_weeks` loop of
`ResponseParser._merge_weeks` (lines 239-248). -/
def mergeWeekStep (result : List Json) (mweek : Json) : Option (List Json) :=
  match mweek with
  | Json.obj m =>
    match weekNumToInt (pyGet m "weekNumber") with
    | none => none
    | some none => some result
    | some (some wn) =>
      let idx : Int := wn - 1
      if 0 ≤ idx ∧ idx < result.length then
        match result.getD idx.toNat Json.null with
        | Json.obj existing =>
          match mergeSingleWeek existing m with
          | none => none
          | some merged => some (result.set idx.toNat (Json.obj merged))
        | _ => none
      else if idx = result.length then some (result ++ [mweek])
      else some result
  | _ => none

/-- `ResponseParser._merge_weeks` (lines 231-250): left fold of
`mergeWeekStep` over the modified weeks, starting from a copy of the
current weeks. -/
def mergeWeeks (currentWeeks modifiedWeeks : List Json) : Option (List Json) :=
  match modifiedWeeks with
  | [] => some currentWeeks
  | m :: rest =>
    match mergeWeekStep currentWeeks m with
    | none => none
    | some result => mergeWeeks result rest

/-!
## Basic lemmas about the embedded dict/list operations
-/

theorem mergeWeeks_nil (cur : List Json) : mergeWeeks cur [] = some cur := rfl

theorem mergeWeeks_cons (cur : List Json) (m : Json) (rest : List Json) :
    mergeWeeks cur (m :: rest) =
      match mergeWeekStep cur m with
      | none => none
      | some r => mergeWeeks r rest := rfl

/-- Appending a brand-new week: `idx == len(result)` branch of `_merge_weeks`. -/
theorem mergeWeekStep_append (result : List Json) (m : List (String × Json))
    (h : m.lookup "weekNumber" = some (Json.num ((result.length : Int) + 1))) :
    mergeWeekStep result (Json.obj m) = some (result ++ [Json.obj m]) := by
  have hpg : pyGet m "weekNumber" = Json.num ((result.length : Int) + 1) := by
    simp [pyGet, h]
  simp only [mergeWeekStep, hpg, weekNumToInt]
  rw [if_neg (by omega), if_pos (by omega)]

/-- Dropping a modification past the end: `idx > len(result)` branch. -/
theorem mergeWeekStep_drop (result : List Json) (m : List (String × Json))
    (k : Int) (h : m.lookup "weekNumber" = some (Json.num k))
    (hk : (result.length : Int) + 1 < k) :
    mergeWeekStep result (Json.obj m) = some result := by
  have hpg : pyGet m "weekNumber" = Json.num k := by simp [pyGet, h]
  simp only [mergeWeekStep, hpg, weekNumToInt]
  rw [if_neg (by omega), if_neg (by omega)]

/-- C1: merging a single modified week into an existing plan of `N` weeks:
with `weekNumber = N + 1` the merge appends the modification as a new last
week; with `weekNumber = N + 2` (index strictly beyond the existing weeks)
the merge returns the original document and the modification is silently
dropped. -/
theorem merge_append_and_drop (weeks : List Json) (m : List (String × Json)) :
    (m.lookup "weekNumber" = some (Json.num ((weeks.length : Int) + 1)) →
      mergeWeeks weeks [Json.obj m] = some (weeks ++ [Json.obj m])) ∧
    (m.lookup "weekNumber" = some (Json.num ((weeks.length : Int) + 2)) →
      mergeWeeks weeks [Json.obj m] = some weeks) := by
  constructor
  · intro h
    rw [mergeWeeks_cons, mergeWeekStep_append weeks m h]
    rfl
  · intro h
    rw [mergeWeeks_cons, mergeWeekStep_drop weeks m _ h (by omega)]
    rfl

/-- Witness for `merge_append_and_drop` on a concrete 1-week plan. -/
theorem merge_append_and_drop_witness :
    mergeWeeks [Json.obj [("weekNumber", Json.num 1), ("days", Json.arr [])]]
        [Json.obj [("weekNumber", Json.num 2), ("summary", Json.str "s")]] =
      some [Json.obj [("weekNumber", Json.num 1), ("days", Json.arr [])],
        Json.obj [("weekNumber", Json.num 2), ("summary", Json.str "s")]] ∧
    mergeWeeks [Json.obj [("weekNumber", Json.num 1), ("days", Json.arr [])]]
        [Json.obj [("weekNumber", Json.num 3), ("summary", Json.str "s")]] =
      some [Json.obj [("weekNumber", Json.num 1), ("days", Json.arr [])]] := by
  constructor
  · exact (merge_append_and_drop
      [Json.obj [("weekNumber", Json.num 1), ("days", Json.arr [])]]
      [("weekNumber", Json.num 2), ("summary", Json.str "s")]).1 rfl
  · exact (merge_append_and_drop
      [Json.obj [("weekNumber", Json.num 1), ("days", Json.arr [])]]
      [("weekNumber", Json.num 3), ("summary", Json.str "s")]).2 rfl

theorem lookup_setAssoc_self (o : List (String × Json)) (k : String) (v : Json) :
    (setAssoc o k v).lookup k = some v := by
  induction o with
  | nil => simp [setAssoc]
  | cons p rest ih =>
    obtain ⟨k', v'⟩ := p
    by_cases hk : k' = k
    · subst hk
      simp [setAssoc]
    · have hb : (k == k') = false := by
        simp [Ne.symm hk]
      simp [setAssoc, hk, List.lookup_cons, hb, ih]

theorem lookup_setAssoc_ne (o : List (String × Json)) (k k' : String) (v : Json)
    (h : k' ≠ k) : (setAssoc o k v).lookup k' = o.lookup k' := by
  have hb : (k' == k) = false := by simp [h]
  induction o with
  | nil => simp [setAssoc, List.lookup_cons, hb]
  | cons p rest ih =>
    obtain ⟨k₀, v₀⟩ := p
    by_cases hk : k₀ = k
    · subst hk
      simp [setAssoc, List.lookup_cons, hb]
    · simp [setAssoc, hk, List.lookup_cons, ih]

/-- The week number a modified-week entry names (`weekNumber` after Python's
implicit bool-to-int coercion), when it names one at all. -/
def weekNumOfJson : Json → Option Int
  | Json.obj o =>
    match weekNumToInt (pyGet o "weekNumber") with
    | some (some k) => some k
    | _ => none
  | _ => none

/-- Case analysis on one `_merge_weeks` loop iteration: it leaves the list
unchanged, appends the modified week at the end, or replaces the week at
index `weekNumber - 1`. -/
theorem mergeWeekStep_cases (result : List Json) (m : Json) (result' : List Json)
    (h : mergeWeekStep result m = some result') :
    result' = result ∨
    (result' = result ++ [m] ∧ weekNumOfJson m = some ((result.length : Int) + 1)) ∨
    (∃ k merged, weekNumOfJson m = some k ∧ 0 ≤ k - 1 ∧
        k - 1 < (result.length : Int) ∧
        result' = result.set (k - 1).toNat (Json.obj merged)) := by
  cases m with
  | null => simp [mergeWeekStep] at h
  | bool b => simp [mergeWeekStep] at h
  | num n => simp [mergeWeekStep] at h
  | str s => simp [mergeWeekStep] at h
  | arr xs => simp [mergeWeekStep] at h
  | obj mo =>
    simp only [mergeWeekStep] at h
    rcases hw : weekNumToInt (pyGet mo "weekNumber") with _ | w
    · rw [hw] at h; cases h
    · rcases w with _ | wn
      · rw [hw] at h
        simp only [Option.some.injEq] at h
        exact Or.inl h.symm
      · rw [hw] at h
        simp only at h
        by_cases hlt : 0 ≤ wn - 1 ∧ wn - 1 < (result.length : Int)
        · rw [if_pos hlt] at h
          rcases hg : result.getD (wn - 1).toNat Json.null with _ | _ | _ | _ | _ | ex
          all_goals rw [hg] at h
          all_goals try cases h
          dsimp only at h
          rcases hm : mergeSingleWeek ex mo with _ | merged
          all_goals rw [hm] at h
          · cases h
          · simp only [Option.some.injEq] at h
            refine Or.inr (Or.inr ⟨wn, merged, ?_, hlt.1, hlt.2, h.symm⟩)
            simp [weekNumOfJson, hw]
        · rw [if_neg hlt] at h
          by_cases heq : wn - 1 = (result.length : Int)
          · rw [if_pos heq] at h
            simp only [Option.some.injEq] at h
            refine Or.inr (Or.inl ⟨h.symm, ?_⟩)
            simp only [weekNumOfJson, hw, Option.some.injEq]
            omega
          · rw [if_neg heq] at h
            simp only [Option.some.injEq] at h
            exact Or.inl h.symm

/-- Frame property of the full merge: an existing week whose (1-based)
number is named by no modified entry is untouched, and the document never
shrinks. -/
theorem mergeWeeks_frame : ∀ (modified current result : List Json),
    mergeWeeks current modified = some result →
    ∀ i : Nat, i < current.length →
      (∀ m ∈ modified, weekNumOfJson m ≠ some ((i : Int) + 1)) →
      result[i]? = current[i]? ∧ current.length ≤ result.length := by
  intro modified
  induction modified with
  | nil =>
    intro current result h i hi _
    rw [mergeWeeks_nil] at h
    cases h
    exact ⟨rfl, le_refl _⟩
  | cons m rest ih =>
    intro current result h i hi hnot
    rw [mergeWeeks_cons] at h
    rcases hs : mergeWeekStep current m with _ | r
    · rw [hs] at h; cases h
    · rw [hs] at h
      have hstep := mergeWeekStep_cases current m r hs
      have hri : r[i]? = current[i]? ∧ current.length ≤ r.length := by
        rcases hstep with heq | ⟨happ, _⟩ | ⟨k, merged, hk, h0, h1, hset⟩
        · subst heq; exact ⟨rfl, le_refl _⟩
        · subst happ
          exact ⟨List.getElem?_append_left hi, by simp⟩
        · subst hset
          have hne : (k - 1).toNat ≠ i := by
            have := hnot m (List.mem_cons_self m rest)
            rw [hk] at this
            simp only [ne_eq, Option.some.injEq] at this
            omega
          exact ⟨List.getElem?_set_ne hne, by simp⟩
      have := ih r result h i (lt_of_lt_of_le hi hri.2)
        (fun m' hm' => hnot m' (List.mem_cons_of_mem m hm'))
      exact ⟨this.1.trans hri.1, le_trans hri.2 this.2⟩

/-- The day search of `_merge_single_week` only reports an index holding a
day object whose label compares equal (Python `==`) to the searched name. -/
theorem searchDay_found : ∀ (days : List Json) (name : Json) (s i : Nat),
    searchDay days name s = some (some i) →
    s ≤ i ∧ ∃ dd, days[i - s]? = some (Json.obj dd) ∧
      jeq (pyGet dd "day") name = true := by
  intro days
  induction days with
  | nil => intro name s i h; simp [searchDay] at h
  | cons d rest ih =>
    intro name s i h
    cases d with
    | null => simp [searchDay] at h
    | bool b => simp [searchDay] at h
    | num n => simp [searchDay] at h
    | str st => simp [searchDay] at h
    | arr xs => simp [searchDay] at h
    | obj dd =>
      simp only [searchDay] at h
      by_cases hj : jeq (pyGet dd "day") name = true
      · rw [if_pos hj] at h
        simp only [Option.some.injEq] at h
        subst h
        exact ⟨le_refl _, dd, by simp, hj⟩
      · rw [if_neg hj] at h
        obtain ⟨hle, dd', hget, hjeq⟩ := ih name (s + 1) i h
        refine ⟨by omega, dd', ?_, hjeq⟩
        have : i - s = (i - (s + 1)) + 1 := by omega
        rw [this, List.getElem?_cons_succ]
        exact hget

/-- Frame property of the day-merge loop: an existing day whose label is
named by no modified day keeps its position and content. -/
theorem mergeDaysLoop_frame : ∀ (mdays current out : List Json),
    mergeDaysLoop current mdays = some out →
    ∀ (j : Nat) (dj : List (String × Json)),
      current[j]? = some (Json.obj dj) →
      (∀ mdd, Json.obj mdd ∈ mdays →
        jeq (pyGet dj "day") (pyGet mdd "day") = false) →
      out[j]? = some (Json.obj dj) := by
  intro mdays
  induction mdays with
  | nil =>
    intro current out h j dj hj _
    cases h
    exact hj
  | cons md rest ih =>
    intro current out h j dj hj hnot
    cases md with
    | null => simp [mergeDaysLoop] at h
    | bool b => simp [mergeDaysLoop] at h
    | num n => simp [mergeDaysLoop] at h
    | str st => simp [mergeDaysLoop] at h
    | arr xs => simp [mergeDaysLoop] at h
    | obj mdd =>
      simp only [mergeDaysLoop] at h
      rcases hs : searchDay current (pyGet mdd "day") 0 with _ | io
      · rw [hs] at h; cases h
      · rcases io with _ | i
        · rw [hs] at h
          have hjlt : j < current.length :=
            (List.getElem?_eq_some_iff.mp hj).1
          refine ih (current ++ [Json.obj mdd]) out h j dj ?_ ?_
          · rw [List.getElem?_append_left hjlt]
            exact hj
          · exact fun mdd' hm => hnot mdd' (List.mem_cons_of_mem _ hm)
        · rw [hs] at h
          obtain ⟨-, ddi, hgi, hji⟩ := searchDay_found current (pyGet mdd "day") 0 i hs
          simp only [Nat.sub_zero] at hgi
          have hne : i ≠ j := by
            intro hij
            subst hij
            rw [hj] at hgi
            simp only [Option.some.injEq, Json.obj.injEq] at hgi
            subst hgi
            rw [hnot mdd (List.mem_cons_self _ _)] at hji
            cases hji
          refine ih (current.set i (Json.obj mdd)) out h j dj ?_ ?_
          · rw [List.getElem?_set_ne hne]
            exact hj
          · exact fun mdd' hm => hnot mdd' (List.mem_cons_of_mem _ hm)

/-- C6: frame property of the merge.  Every existing week whose week number
is named by no modified entry appears unchanged (same position, same
content) in the merged document, and, within a modified week, every
existing day object whose label is named by no modified day appears
unchanged at its position in the merged day list.  (The Python code builds
the result from `list(...)`/`dict(...)` copies and never mutates the input
document, which is what licenses this pure-functional embedding.) -/
theorem merge_untouched_parts_preserved :
    (∀ current modified result, mergeWeeks current modified = some result →
      ∀ i : Nat, i < current.length →
        (∀ m ∈ modified, weekNumOfJson m ≠ some ((i : Int) + 1)) →
        result[i]? = current[i]?) ∧
    (∀ existing modified res mdays edays,
      mergeSingleWeek existing modified = some res →
      modified.lookup "days" = some (Json.arr mdays) →
      existingDaysOf existing = some edays →
      ∀ (j : Nat) (dj : List (String × Json)), edays[j]? = some (Json.obj dj) →
        (∀ mdd, Json.obj mdd ∈ mdays →
          jeq (pyGet dj "day") (pyGet mdd "day") = false) →
        ∃ merged, res.lookup "days" = some (Json.arr merged) ∧
          merged[j]? = some (Json.obj dj)) := by
  constructor
  · intro current modified result h i hi hnot
    exact (mergeWeeks_frame modified current result h i hi hnot).1
  · intro existing modified res mdays edays h hdays hed j dj hj hnot
    rcases hs : modified.lookup "summary" with _ | v
    · simp only [mergeSingleWeek, hs, hdays, hed] at h
      rcases hml : mergeDaysLoop edays mdays with _ | merged
      · rw [hml] at h; cases h
      · rw [hml] at h
        simp only [Option.some.injEq] at h
        subst h
        exact ⟨merged, lookup_setAssoc_self _ _ _,
          mergeDaysLoop_frame mdays edays merged hml j dj hj hnot⟩
    · have hlk : (setAssoc existing "summary" v).lookup "days" =
          existing.lookup "days" :=
        lookup_setAssoc_ne existing "summary" "days" v (by decide)
      have hed' : existingDaysOf (setAssoc existing "summary" v) = some edays := by
        simp only [existingDaysOf, hlk]
        simpa only [existingDaysOf] using hed
      simp only [mergeSingleWeek, hs, hdays, hed'] at h
      rcases hml : mergeDaysLoop edays mdays with _ | merged
      · rw [hml] at h; cases h
      · rw [hml] at h
        simp only [Option.some.injEq] at h
        subst h
        exact ⟨merged, lookup_setAssoc_self _ _ _,
          mergeDaysLoop_frame mdays edays merged hml j dj hj hnot⟩

/-- Witness for `merge_untouched_parts_preserved`: a 2-week plan where a
modification names only week 2 and only its "Wed" day; week 1 and the
"Mon" day stay in place. -/
theorem merge_untouched_parts_preserved_witness :
    ([Json.obj [("weekNumber", Json.num 1)],
      Json.obj [("weekNumber", Json.num 2), ("days", Json.arr
        [Json.obj [("day", Json.str "Mon")],
         Json.obj [("day", Json.str "Wed"), ("x", Json.num 3)]])]] :
      List Json)[0]? =
    ([Json.obj [("weekNumber", Json.num 1)],
      Json.obj [("weekNumber", Json.num 2), ("days", Json.arr
        [Json.obj [("day", Json.str "Mon")],
         Json.obj [("day", Json.str "Wed"), ("x", Json.num 2)]])]] :
      List Json)[0]? ∧
    ∃ merged,
      ([("days", Json.arr [Json.obj [("day", Json.str "Mon")],
          Json.obj [("day", Json.str "Wed"), ("x", Json.num 3)]])] :
        List (String × Json)).lookup "days" = some (Json.arr merged) ∧
      merged[0]? = some (Json.obj [("day", Json.str "Mon")]) := by
  constructor
  · exact merge_untouched_parts_preserved.1
      [Json.obj [("weekNumber", Json.num 1)],
       Json.obj [("weekNumber", Json.num 2), ("days", Json.arr
         [Json.obj [("day", Json.str "Mon")],
          Json.obj [("day", Json.str "Wed"), ("x", Json.num 2)]])]]
      [Json.obj [("weekNumber", Json.num 2), ("days", Json.arr
        [Json.obj [("day", Json.str "Wed"), ("x", Json.num 3)]])]]
      _ rfl 0 (by norm_num)
      (fun m hm => by
        cases hm with
        | head =>
          intro hc
          simp [weekNumOfJson, weekNumToInt, pyGet] at hc
        | tail _ h => cases h)
  · exact merge_untouched_parts_preserved.2
      [("days", Json.arr [Json.obj [("day", Json.str "Mon")],
        Json.obj [("day", Json.str "Wed"), ("x", Json.num 2)]])]
      [("days", Json.arr [Json.obj [("day", Json.str "Wed"), ("x", Json.num 3)]])]
      _ [Json.obj [("day", Json.str "Wed"), ("x", Json.num 3)]]
      [Json.obj [("day", Json.str "Mon")],
       Json.obj [("day", Json.str "Wed"), ("x", Json.num 2)]]
      rfl rfl rfl 0 [("day", Json.str "Mon")] rfl
      (fun mdd hm => by
        cases hm with
        | head => rfl
        | tail _ h => cases h)

/-- A probe evaluating the `"x"` field of the first day of a week; used to
distinguish two concrete plan documents. -/
def dayOneX : Json → Int
  | Json.obj w =>
    match w.lookup "days" with
    | some (Json.arr (Json.obj d :: _)) =>
      match d.lookup "x" with
      | some (Json.num n) => n
      | _ => 0
    | _ => 0
  | _ => 0

/-- Counterexample to C7 as stated: a week whose two days share the label
`"Mon"`.  Merging a modified week whose day list is *literally identical*
to the existing day list (same labels, same content) replaces the first
`"Mon"` day by the second one, so the merged document is not deep-equal to
the original. -/
theorem merge_idempotence_counterexample :
    mergeWeeks
      [Json.obj [("weekNumber", Json.num 1), ("days", Json.arr
        [Json.obj [("day", Json.str "Mon"), ("x", Json.num 1)],
         Json.obj [("day", Json.str "Mon"), ("x", Json.num 2)]])]]
      [Json.obj [("weekNumber", Json.num 1), ("days", Json.arr
        [Json.obj [("day", Json.str "Mon"), ("x", Json.num 1)],
         Json.obj [("day", Json.str "Mon"), ("x", Json.num 2)]])]] =
      some [Json.obj [("weekNumber", Json.num 1), ("days", Json.arr
        [Json.obj [("day", Json.str "Mon"), ("x", Json.num 2)],
         Json.obj [("day", Json.str "Mon"), ("x", Json.num 2)]])]] ∧
    Json.obj [("weekNumber", Json.num 1), ("days", Json.arr
        [Json.obj [("day", Json.str "Mon"), ("x", Json.num 2)],
         Json.obj [("day", Json.str "Mon"), ("x", Json.num 2)]])] ≠
      Json.obj [("weekNumber", Json.num 1), ("days", Json.arr
        [Json.obj [("day", Json.str "Mon"), ("x", Json.num 1)],
         Json.obj [("day", Json.str "Mon"), ("x", Json.num 2)]])] := by
  refine ⟨rfl, fun h => ?_⟩
  have hx := congrArg dayOneX h
  simp only [dayOneX] at hx
  exact absurd hx (by decide)

/-- The label a day object carries (for non-objects, which cannot occur in
a successfully merged day list, the value is irrelevant). -/
def dayLabel : Json → Json
  | Json.obj dd => pyGet dd "day"
  | _ => Json.null

theorem setAssoc_self (o : List (String × Json)) (k : String) (v : Json)
    (h : o.lookup k = some v) : setAssoc o k v = o := by
  induction o with
  | nil => simp at h
  | cons p rest ih =>
    obtain ⟨k₀, v₀⟩ := p
    by_cases hk : k₀ = k
    · subst hk
      rw [List.lookup_cons_self] at h
      cases h
      simp [setAssoc]
    · have hb : (k == k₀) = false := by simp [Ne.symm hk]
      rw [List.lookup_cons, hb] at h
      simp only [setAssoc, hk, if_false]
      rw [ih h]

theorem list_set_self {α : Type _} : ∀ (l : List α) (i : Nat) (a : α),
    l[i]? = some a → l.set i a = l := by
  intro l
  induction l with
  | nil => intro i a h; simp at h
  | cons x xs ih =>
    intro i a h
    cases i with
    | zero =>
      simp only [List.getElem?_cons_zero, Option.some.injEq] at h
      subst h
      rfl
    | succ n =>
      simp only [List.getElem?_cons_succ] at h
      simp [List.set, ih n a h]

/-- `searchDay` finds exactly the first matching index. -/
theorem searchDay_first : ∀ (ds : List Json) (name : Json) (t s : Nat),
    (∀ u, u < t → ∃ dd, ds[u]? = some (Json.obj dd) ∧
      jeq (pyGet dd "day") name = false) →
    (∃ dd, ds[t]? = some (Json.obj dd) ∧ jeq (pyGet dd "day") name = true) →
    searchDay ds name s = some (some (s + t)) := by
  intro ds
  induction ds with
  | nil =>
    intro name t s _ hyes
    obtain ⟨dd, hget, _⟩ := hyes
    simp at hget
  | cons d rest ih =>
    intro name t s hno hyes
    cases t with
    | zero =>
      obtain ⟨dd, hget, hjeq⟩ := hyes
      simp only [List.getElem?_cons_zero, Option.some.injEq] at hget
      subst hget
      simp [searchDay, hjeq]
    | succ t' =>
      obtain ⟨dd0, hget0, hjeq0⟩ := hno 0 (Nat.succ_pos _)
      simp only [List.getElem?_cons_zero, Option.some.injEq] at hget0
      subst hget0
      have : searchDay rest name (s + 1) = some (some ((s + 1) + t')) := by
        apply ih name t' (s + 1)
        · intro u hu
          have := hno (u + 1) (by omega)
          simpa using this
        · obtain ⟨dd, hget, hjeq⟩ := hyes
          exact ⟨dd, by simpa using hget, hjeq⟩
      simp only [searchDay, hjeq0, if_false]
      rw [show s + (t' + 1) = s + 1 + t' from by omega]
      exact this

/-- Replaying a week's own day list through the day-merge loop is the
identity, provided the day labels are pairwise distinct. -/
theorem mergeDaysLoop_self (ds : List Json)
    (hobj : ∀ d ∈ ds, ∃ dd, d = Json.obj dd)
    (hnodup : List.Pairwise (fun a b => jeq (dayLabel a) (dayLabel b) = false) ds) :
    ∀ pre suf, ds = pre ++ suf → mergeDaysLoop ds suf = some ds := by
  intro pre suf
  induction suf generalizing pre with
  | nil => intro _; rfl
  | cons md rest ih =>
    intro hsplit
    have hlen : pre.length < ds.length := by
      rw [hsplit]; simp
    have hmd : ds[pre.length]? = some md := by
      rw [hsplit, List.getElem?_append_right (le_refl _)]
      simp
    obtain ⟨mdd, hmdd⟩ := hobj md (by
      rw [hsplit]; exact List.mem_append_right pre (List.mem_cons_self _ _))
    have hsearch : searchDay ds (pyGet mdd "day") 0 = some (some pre.length) := by
      have := searchDay_first ds (pyGet mdd "day") pre.length 0 ?_ ?_
      · simpa using this
      · intro u hu
        have hu' : u < ds.length := by omega
        obtain ⟨ddu, hddu⟩ := hobj ds[u] (List.getElem_mem hu')
        refine ⟨ddu, by simp [List.getElem?_eq_getElem hu', hddu], ?_⟩
        have hp := List.pairwise_iff_getElem.mp hnodup u pre.length hu' hlen hu
        rw [hddu] at hp
        have hmd' : ds[pre.length] = md := by
          have := List.getElem?_eq_getElem hlen
          rw [hmd] at this
          exact (Option.some.injEq _ _ ▸ this.symm :)
        rw [hmd', hmdd] at hp
        simpa [dayLabel] using hp
      · refine ⟨mdd, ?_, ?_⟩
        · rw [hmd, hmdd]
        · exact jeq_refl _
    rw [hmdd] at hmd
    simp only [mergeDaysLoop, hmdd, hsearch]
    rw [list_set_self ds pre.length (Json.obj mdd) hmd]
    exact ih (pre ++ [md]) (by rw [hsplit]; simp)

/-- C7 (amended): merging a modified week whose day list is exactly the
existing week's day list yields a document deep-equal to the original,
provided the existing day labels are pairwise distinct (days are identified
by their label, as the data model assumes) and the modification carries no
summary differing from the existing one.  Without the distinctness proviso
the statement fails, see the counterexample. -/
theorem merge_idempotent_distinct_labels
    (weeks : List Json) (i : Nat) (w m : List (String × Json)) (ds : List Json)
    (hi : weeks[i]? = some (Json.obj w))
    (hwn : m.lookup "weekNumber" = some (Json.num ((i : Int) + 1)))
    (hdays : m.lookup "days" = some (Json.arr ds))
    (hwdays : w.lookup "days" = some (Json.arr ds))
    (hsum : m.lookup "summary" = none ∨
      ∃ v, m.lookup "summary" = some v ∧ w.lookup "summary" = some v)
    (hobj : ∀ d ∈ ds, ∃ dd, d = Json.obj dd)
    (hnodup : List.Pairwise (fun a b => jeq (dayLabel a) (dayLabel b) = false) ds) :
    mergeWeeks weeks [Json.obj m] = some weeks := by
  have hilen : i < weeks.length := (List.getElem?_eq_some_iff.mp hi).1
  have hloop : mergeDaysLoop ds ds = some ds :=
    mergeDaysLoop_self ds hobj hnodup [] ds rfl
  have hsw : mergeSingleWeek w m = some w := by
    rcases hsum with hnone | ⟨v, hmv, hwv⟩
    · have hed : existingDaysOf w = some ds := by
        simp [existingDaysOf, hwdays]
      simp only [mergeSingleWeek, hnone, hdays, hed, hloop]
      rw [setAssoc_self w "days" (Json.arr ds) hwdays]
    · have hsetsum : setAssoc w "summary" v = w := setAssoc_self w "summary" v hwv
      have hed : existingDaysOf (setAssoc w "summary" v) = some ds := by
        rw [hsetsum]
        simp [existingDaysOf, hwdays]
      simp only [mergeSingleWeek, hmv, hdays, hed, hloop]
      rw [hsetsum, setAssoc_self w "days" (Json.arr ds) hwdays]
  have hstep : mergeWeekStep weeks (Json.obj m) = some weeks := by
    have hpg : pyGet m "weekNumber" = Json.num ((i : Int) + 1) := by
      simp [pyGet, hwn]
    simp only [mergeWeekStep, hpg, weekNumToInt]
    rw [if_pos (by constructor <;> omega)]
    rw [show ((i : Int) + 1 - 1).toNat = i from by omega]
    rw [List.getD_eq_getElem?_getD, hi]
    simp only [Option.getD_some]
    rw [hsw]
    simp only
    rw [list_set_self weeks i (Json.obj w) hi]
  rw [mergeWeeks_cons, hstep]
  rfl

/-- Witness for `merge_idempotent_distinct_labels`: re-merging a week with
distinct day labels "Mon"/"Tue" is the identity. -/
theorem merge_idempotent_distinct_labels_witness :
    mergeWeeks
      [Json.obj [("weekNumber", Json.num 1), ("days", Json.arr
        [Json.obj [("day", Json.str "Mon"), ("x", Json.num 1)],
         Json.obj [("day", Json.str "Tue"), ("x", Json.num 2)]])]]
      [Json.obj [("weekNumber", Json.num 1), ("days", Json.arr
        [Json.obj [("day", Json.str "Mon"), ("x", Json.num 1)],
         Json.obj [("day", Json.str "Tue"), ("x", Json.num 2)]])]] =
      some [Json.obj [("weekNumber", Json.num 1), ("days", Json.arr
        [Json.obj [("day", Json.str "Mon"), ("x", Json.num 1)],
         Json.obj [("day", Json.str "Tue"), ("x", Json.num 2)]])]] := by
  refine merge_idempotent_distinct_labels _ 0
    [("weekNumber", Json.num 1), ("days", Json.arr
      [Json.obj [("day", Json.str "Mon"), ("x", Json.num 1)],
       Json.obj [("day", Json.str "Tue"), ("x", Json.num 2)]])]
    [("weekNumber", Json.num 1), ("days", Json.arr
      [Json.obj [("day", Json.str "Mon"), ("x", Json.num 1)],
       Json.obj [("day", Json.str "Tue"), ("x", Json.num 2)]])]
    [Json.obj [("day", Json.str "Mon"), ("x", Json.num 1)],
     Json.obj [("day", Json.str "Tue"), ("x", Json.num 2)]]
    rfl rfl rfl rfl (Or.inl rfl) ?_ ?_
  · intro d hd
    cases hd with
    | head => exact ⟨_, rfl⟩
    | tail _ h =>
      cases h with
      | head => exact ⟨_, rfl⟩
      | tail _ h => cases h
  · refine List.Pairwise.cons ?_ (List.Pairwise.cons (by intro b hb; cases hb)
      List.Pairwise.nil)
    intro b hb
    cases hb with
    | head => rfl
    | tail _ h => cases h

/-!
## The orchestration state machine

Embedding of `CoachAgent` (`backend/app/services/agent/coach.py`) and
`ActionRouter` (`backend/app/services/agent/router.py`).

The `AgentState` TypedDict becomes the structure `AgentCtx`.  External
collaborators are parameters: `memGet` models `MemoryManager.get_context`
(with the query derivation of `_retrieve_memory_node` folded into the
opaque memory manager, which no claim depends on), `req` models the routed
action's `get_required_tools`, `registry` the `self._tools` dict together
with each tool's `execute`, and `exec` models `ActionRouter.execute` (the
handler's `execute`).  An `Option`/`Except` `none`/`error` result models a
raised exception.  Logging and the decision tracer are observability-only
and are not modelled, except that the loop embedding additionally returns
the list of tool names whose `execute` was actually entered, so that
invocation counts can be stated. -/

/-- The mutable `AgentState` threaded through the LangGraph nodes. -/
structure AgentCtx where
  action : String
  sessionId : String
  planId : Option String
  planData : List (String × Json)
  userProfile : List (String × Json)
  recordId : Option String
  recordData : Option (List (String × Json))
  userMessage : String
  conversationHistory : List (String × String)
  longTermContext : String
  workingContext : List (String × Json)
  userPreferences : List (String × Json)
  pendingTools : List String
  toolResults : List (String × Json)
  responseMessage : String
  updatedPlan : Option (List Json)
  analysisResult : Option String
  suggestUpdate : Bool
  updateSuggestion : Option String
  error : Option String
deriving Repr

/-- Python truthiness of `state.get("error")`: set and non-empty.  (An
empty error string is falsy in Python, so the nodes would not treat it as
an error; the embedding reproduces that.) -/
def isErrorSet (c : AgentCtx) : Bool :=
  match c.error with
  | some e => e != ""
  | none => false

/-- Python truthiness of an optional dict (`None` and `{}` are falsy). -/
def truthyOptObj (o : Option (List (String × Json))) : Bool :=
  match o with
  | some xs => !xs.isEmpty
  | none => false

/-- An `AgentRequest` as handed to `CoachAgent.execute` (`state.py`).
`action` is the string value of the `ActionType` enum. -/
structure AgentRequest where
  action : String
  sessionId : String
  planId : Option String := none
  userProfile : Option (List (String × Json)) := none
  startDate : Option String := none
  planData : Option (List (String × Json)) := none
  userMessage : Option String := none
  conversationHistory : Option (List (String × String)) := none
  recordId : Option String := none
  recordData : Option (List (String × Json)) := none

/-- `create_initial_state` (`state.py`, lines 170-204).  The `user_profile`
field reproduces Python's parse of
`request.user_profile or request.plan_data.get("userProfile", {}) if
request.plan_data else {}` (the conditional has lowest precedence).
A non-dict `userProfile` entry inside `plan_data` is outside the modelled
domain. -/
def createInitialState (r : AgentRequest) : AgentCtx where
  action := r.action
  sessionId := r.sessionId
  planId := r.planId
  planData := r.planData.getD []
  userProfile :=
    if truthyOptObj r.planData then
      if truthyOptObj r.userProfile then r.userProfile.getD []
      else
        match (r.planData.getD []).lookup "userProfile" with
        | some (Json.obj o) => o
        | _ => []
    else []
  recordId := r.recordId
  recordData := r.recordData
  userMessage := r.userMessage.getD ""
  conversationHistory := r.conversationHistory.getD []
  longTermContext := ""
  workingContext := []
  userPreferences := []
  pendingTools := []
  toolResults := []
  responseMessage := ""
  updatedPlan := none
  analysisResult := none
  suggestUpdate := false
  updateSuggestion := none
  error := none

/-- The action types registered by `ActionRouter._register_default_actions`. -/
def registeredActions : List String := ["generate_plan", "modify_plan", "analyze_record"]

/-- `ActionRouter.route` (`router.py`, lines 65-90): a registered action
type passes through; otherwise the action is inferred by priority
(record data → analyze, message+plan → modify, profile → generate), and
failing all of these a `ValueError` is raised (`Except.error`). -/
def route (c : AgentCtx) : Except String String :=
  if registeredActions.contains c.action then Except.ok c.action
  else if truthyOptObj c.recordData then Except.ok "analyze_record"
  else if c.userMessage != "" && !c.planData.isEmpty then Except.ok "modify_plan"
  else if !c.userProfile.isEmpty then Except.ok "generate_plan"
  else Except.error "Unable to determine action from state"

/-- `_retrieve_memory_node`: on success the retrieved context is written
into the state; any exception is logged and swallowed, the state passing
through unchanged. -/
def retrieveMemoryNode
    (memGet : AgentCtx → Option (String × List (String × Json) × List (String × Json)))
    (c : AgentCtx) : AgentCtx :=
  match memGet c with
  | some (lt, wk, prefs) =>
    { c with longTermContext := lt, workingContext := wk, userPreferences := prefs }
  | none => c

/-- `_route_action_node`: store the routed action, or store the routing
exception's text in `error`. -/
def routeActionNode (c : AgentCtx) : AgentCtx :=
  match route c with
  | Except.ok a => { c with action := a }
  | Except.error e => { c with error := some e }

/-- `_check_tools_node` (lines 219-250): skip when `error` is set;
otherwise ask the routed action for its required tools and keep those not
already present in `tool_results` (a raising `get_required_tools`, modelled
by `req _ = none`, is caught and leaves an empty pending list). -/
def checkToolsNode (req : AgentCtx → Option (List String)) (c : AgentCtx) : AgentCtx :=
  if isErrorSet c then c
  else
    match req c with
    | some tools =>
      { c with pendingTools :=
          tools.filter (fun t => !(keysOf c.toolResults).contains t) }
    | none => { c with pendingTools := [] }

/-- `_call_tool_node` (lines 252-307): pop the first pending tool; if it is
registered, run it and store its result under its name (a raising tool,
modelled by `tool _ = none`, is caught and contributes no result); an
unregistered name contributes no result.  In every branch the pending list
becomes its tail.  The second component records the tool names whose
`execute` was actually entered. -/
def callToolNode (registry : String → Option (AgentCtx → Option Json))
    (c : AgentCtx) : AgentCtx × List String :=
  match c.pendingTools with
  | [] => (c, [])
  | name :: remaining =>
    match registry name with
    | some tool =>
      match tool c with
      | some result =>
        ({ c with toolResults := setAssoc c.toolResults name result,
                  pendingTools := remaining }, [name])
      | none => ({ c with pendingTools := remaining }, [name])
    | none => ({ c with pendingTools := remaining }, [])

/-- `_should_check_tools`: with an error short-circuit to execution; only
generate/analyze actions enter the tool loop. -/
def shouldCheckTools (c : AgentCtx) : String :=
  if isErrorSet c then "execute"
  else if c.action == "generate_plan" || c.action == "analyze_record" then "check_tools"
  else "execute"

/-- The `{check_tools → call_tool}*` loop of the graph, with explicit fuel
(the real graph is bounded by LangGraph's recursion limit).  Returns the
final state and the concatenated invocation log. -/
def runToolLoop (req : AgentCtx → Option (List String))
    (registry : String → Option (AgentCtx → Option Json)) :
    Nat → AgentCtx → AgentCtx × List String
  | 0, c => (c, [])
  | Nat.succ fuel, c =>
    let c1 := checkToolsNode req c
    if c1.pendingTools.isEmpty then (c1, [])
    else
      let step := callToolNode registry c1
      let rest := runToolLoop req registry fuel step.1
      (rest.1, step.2 ++ rest.2)

/-- The user-facing fallback substituted by `_execute_action_node` when the
handler raises. -/
def executeFallbackMessage : String := "抱歉，处理请求时出现错误。请稍后重试。"

/-- `_execute_action_node` (lines 323-359): skip when `error` is set; on
success the handler's returned state replaces the current one wholesale; a
raising handler is caught, its text stored in `error` and the fallback
message substituted. -/
def executeActionNode (exec : AgentCtx → Except String AgentCtx) (c : AgentCtx) :
    AgentCtx :=
  if isErrorSet c then c
  else
    match exec c with
    | Except.ok r => r
    | Except.error e =>
      { c with error := some e, responseMessage := executeFallbackMessage }

/-- `_update_memory_node` (lines 383-456): skip when `error` is set or
`plan_id` is falsy; all memory-store failures are swallowed.  The only
state change is that, for a modify action with a truthy `updated_plan`,
`plan_data["weeks"]` is overwritten in place — unless the preceding
`store_conversation` call raised (`convRaises`, only attempted when both
the user message and the response are non-empty), which skips the rest of
the `try` block. -/
def updateMemoryNode (convRaises : Bool) (c : AgentCtx) : AgentCtx :=
  if isErrorSet c then c
  else
    match c.planId with
    | none => c
    | some p =>
      if p == "" then c
      else
        if c.action == "modify_plan" then
          if c.userMessage != "" && c.responseMessage != "" && convRaises then c
          else
            match c.updatedPlan with
            | some l =>
              if l.isEmpty then c
              else { c with planData := setAssoc c.planData "weeks" (Json.arr l) }
            | none => c
        else c

/-- The `AgentResponse` dataclass (`state.py`). -/
structure AgentResponse where
  success : Bool
  message : String := ""
  plan : Option Json := none
  updatedWeeks : Option (List Json) := none
  analysis : Option String := none
  suggestUpdate : Bool := false
  updateSuggestion : Option String := none
  error : Option String := none
deriving Repr

/-- `_state_to_response` (lines 624-656): an error state yields
`success=False` with whatever `response_message` the state holds and the
error text; otherwise `success=True` plus action-specific fields keyed on
the *original request's* action. -/
def stateToResponse (requestAction : String) (c : AgentCtx) : AgentResponse :=
  if isErrorSet c then
    { success := false, message := c.responseMessage, error := c.error }
  else if requestAction == "generate_plan" then
    { success := true, message := c.responseMessage,
      plan := some (pyGet c.toolResults "plan_data"),
      updatedWeeks := c.updatedPlan }
  else if requestAction == "modify_plan" then
    { success := true, message := c.responseMessage, updatedWeeks := c.updatedPlan }
  else if requestAction == "analyze_record" then
    { success := true, message := c.responseMessage, analysis := c.analysisResult,
      suggestUpdate := c.suggestUpdate, updateSuggestion := c.updateSuggestion }
  else
    { success := true, message := c.responseMessage }

/-- The pipeline up to (but excluding) `execute_action`:
`retrieve_memory → route_action → {check_tools → call_tool}*`. -/
def pipelinePreExec
    (memGet : AgentCtx → Option (String × List (String × Json) × List (String × Json)))
    (req : AgentCtx → Option (List String))
    (registry : String → Option (AgentCtx → Option Json))
    (fuel : Nat) (c0 : AgentCtx) : AgentCtx × List String :=
  if shouldCheckTools (routeActionNode (retrieveMemoryNode memGet c0)) == "check_tools"
  then runToolLoop req registry fuel (routeActionNode (retrieveMemoryNode memGet c0))
  else (routeActionNode (retrieveMemoryNode memGet c0), [])

/-- The full non-streaming graph run of `CoachAgent.execute`, returning
the final state and the tool-invocation log. -/
def runAgentPipeline
    (memGet : AgentCtx → Option (String × List (String × Json) × List (String × Json)))
    (req : AgentCtx → Option (List String))
    (registry : String → Option (AgentCtx → Option Json))
    (exec : AgentCtx → Except String AgentCtx)
    (convRaises : Bool) (fuel : Nat) (c0 : AgentCtx) : AgentCtx × List String :=
  (updateMemoryNode convRaises
      (executeActionNode exec (pipelinePreExec memGet req registry fuel c0).1),
    (pipelinePreExec memGet req registry fuel c0).2)

/-- `CoachAgent.execute`: run the graph on the initial state and convert
the final state to a response, keyed on the request's action. -/
def runAgent
    (memGet : AgentCtx → Option (String × List (String × Json) × List (String × Json)))
    (req : AgentCtx → Option (List String))
    (registry : String → Option (AgentCtx → Option Json))
    (exec : AgentCtx → Except String AgentCtx)
    (convRaises : Bool) (fuel : Nat) (c0 : AgentCtx) : AgentResponse :=
  stateToResponse c0.action (runAgentPipeline memGet req registry exec convRaises fuel c0).1

/-- `BaseAction.get_required_tools` returns `[]`, and neither
`GeneratePlanAction` nor `AnalyzeRecordAction` (nor `ModifyPlanAction`)
overrides it, so every routed action declares no tools and the declaration
never raises. -/
def coachRequiredTools : AgentCtx → Option (List String) := fun _ => some []

theorem length_setAssoc_le (o : List (String × Json)) (k : String) (v : Json) :
    (setAssoc o k v).length ≤ o.length + 1 := by
  induction o with
  | nil => simp [setAssoc]
  | cons p rest ih =>
    obtain ⟨k₀, v₀⟩ := p
    by_cases hk : k₀ = k <;> simp [setAssoc, hk] <;> omega

theorem mem_keysOf_setAssoc (o : List (String × Json)) (k k' : String) (v : Json)
    (h : k' ∈ keysOf (setAssoc o k v)) : k' ∈ keysOf o ∨ k' = k := by
  induction o with
  | nil => simpa [setAssoc, keysOf] using h
  | cons p rest ih =>
    obtain ⟨k₀, v₀⟩ := p
    by_cases hk : k₀ = k
    · subst hk
      simp [setAssoc, keysOf] at h ⊢
      tauto
    · simp only [setAssoc, hk, if_false, keysOf, List.map_cons, List.mem_cons] at h ⊢
      rcases h with h | h
      · exact Or.inl (Or.inl h)
      · rcases ih h with h' | h'
        · exact Or.inl (Or.inr h')
        · exact Or.inr h'

theorem mem_keysOf_setAssoc_of_mem (o : List (String × Json)) (k k' : String)
    (v : Json) (h : k' ∈ keysOf o) : k' ∈ keysOf (setAssoc o k v) := by
  induction o with
  | nil => simp [keysOf] at h
  | cons p rest ih =>
    obtain ⟨k₀, v₀⟩ := p
    by_cases hk : k₀ = k
    · subst hk
      simpa [setAssoc, keysOf] using h
    · simp only [keysOf, List.map_cons, List.mem_cons] at h
      rcases h with h | h
      · simp [setAssoc, hk, keysOf, h]
      · simp only [setAssoc, hk, if_false, keysOf, List.map_cons, List.mem_cons]
        exact Or.inr (ih h)

theorem self_mem_keysOf_setAssoc (o : List (String × Json)) (k : String) (v : Json) :
    k ∈ keysOf (setAssoc o k v) := by
  induction o with
  | nil => simp [setAssoc, keysOf]
  | cons p rest ih =>
    obtain ⟨k₀, v₀⟩ := p
    by_cases hk : k₀ = k
    · subst hk
      simp [setAssoc, keysOf]
    · simp only [setAssoc, hk, if_false, keysOf, List.map_cons, List.mem_cons]
      exact Or.inr ih

/-- C2: one `CallTool` step on a Context with a non-empty pending list pops
exactly one pending entry, adds at most one new key to the tool-result map,
and adds no key at all when the popped name is not in the registry. -/
theorem call_tool_step_effect (registry : String → Option (AgentCtx → Option Json))
    (c : AgentCtx) (name : String) (rest : List String)
    (hp : c.pendingTools = name :: rest) :
    ((callToolNode registry c).1.pendingTools.length + 1 = c.pendingTools.length) ∧
    ((callToolNode registry c).1.toolResults.length ≤ c.toolResults.length + 1) ∧
    (∀ k, k ∈ keysOf (callToolNode registry c).1.toolResults →
        k ∈ keysOf c.toolResults ∨ k = name) ∧
    (registry name = none →
      (callToolNode registry c).1.toolResults = c.toolResults) := by
  rcases hr : registry name with _ | tool
  · have hc : (callToolNode registry c).1 = { c with pendingTools := rest } := by
      simp [callToolNode, hp, hr]
    rw [hc, hp]
    exact ⟨by simp, Nat.le_succ _, fun k hk => Or.inl hk, fun _ => rfl⟩
  · rcases ht : tool c with _ | result
    · have hc : (callToolNode registry c).1 = { c with pendingTools := rest } := by
        simp [callToolNode, hp, hr, ht]
      rw [hc, hp]
      refine ⟨by simp, Nat.le_succ _, fun k hk => Or.inl hk, fun hcontra => ?_⟩
      cases hcontra
    · have hc : (callToolNode registry c).1 =
          { c with toolResults := setAssoc c.toolResults name result,
                   pendingTools := rest } := by
        simp [callToolNode, hp, hr, ht]
      rw [hc, hp]
      refine ⟨by simp, length_setAssoc_le _ _ _,
        fun k hk => mem_keysOf_setAssoc _ _ _ _ hk, fun hcontra => ?_⟩
      cases hcontra

/-- Witness for `call_tool_step_effect`: a Context with one pending,
unregistered tool name. -/
theorem call_tool_step_effect_witness :
    ((callToolNode (fun _ => none)
        { createInitialState { action := "generate_plan", sessionId := "s" } with
          pendingTools := ["nope"] }).1.pendingTools.length + 1 =
      ({ createInitialState { action := "generate_plan", sessionId := "s" } with
          pendingTools := ["nope"] } : AgentCtx).pendingTools.length) ∧
    (callToolNode (fun _ => none)
        { createInitialState { action := "generate_plan", sessionId := "s" } with
          pendingTools := ["nope"] }).1.toolResults =
      ({ createInitialState { action := "generate_plan", sessionId := "s" } with
          pendingTools := ["nope"] } : AgentCtx).toolResults := by
  exact ⟨(call_tool_step_effect (fun _ => none) _ "nope" [] rfl).1,
    (call_tool_step_effect (fun _ => none) _ "nope" [] rfl).2.2.2 rfl⟩

/-- C3: once `error` is set (and non-empty), `CheckTools`, `ExecuteAction`
and `UpdateMemory` all return the Context unchanged — in particular
`response_message` and `updated_plan` are never overwritten — and the
conditional edge after routing short-circuits straight to execution
(whence to the terminal state). -/
theorem error_short_circuit (req : AgentCtx → Option (List String))
    (exec : AgentCtx → Except String AgentCtx) (convRaises : Bool)
    (c : AgentCtx) (h : isErrorSet c = true) :
    checkToolsNode req c = c ∧ executeActionNode exec c = c ∧
    updateMemoryNode convRaises c = c ∧ shouldCheckTools c = "execute" := by
  refine ⟨?_, ?_, ?_, ?_⟩ <;>
    simp [checkToolsNode, executeActionNode, updateMemoryNode, shouldCheckTools, h]

/-- Witness for `error_short_circuit`: a Context whose error field holds
`"boom"`. -/
theorem error_short_circuit_witness :
    (checkToolsNode (fun _ => some [])
      { createInitialState { action := "modify_plan", sessionId := "s" } with
        error := some "boom" } =
      { createInitialState { action := "modify_plan", sessionId := "s" } with
        error := some "boom" }) ∧
    shouldCheckTools
      { createInitialState { action := "modify_plan", sessionId := "s" } with
        error := some "boom" } = "execute" := by
  refine ⟨(error_short_circuit (fun _ => some []) (fun c => Except.ok c) false
      { createInitialState { action := "modify_plan", sessionId := "s" } with
        error := some "boom" } (by rfl)).1,
    (error_short_circuit (fun _ => some []) (fun c => Except.ok c) false
      { createInitialState { action := "modify_plan", sessionId := "s" } with
        error := some "boom" } (by rfl)).2.2.2⟩

theorem checkToolsNode_toolResults (req : AgentCtx → Option (List String))
    (c : AgentCtx) : (checkToolsNode req c).toolResults = c.toolResults := by
  unfold checkToolsNode
  split
  · rfl
  · split <;> rfl

theorem checkToolsNode_error (req : AgentCtx → Option (List String))
    (c : AgentCtx) : (checkToolsNode req c).error = c.error := by
  unfold checkToolsNode
  split
  · rfl
  · split <;> rfl

theorem callToolNode_error (registry : String → Option (AgentCtx → Option Json))
    (c : AgentCtx) : (callToolNode registry c).1.error = c.error := by
  unfold callToolNode
  split
  · rfl
  · split
    · split <;> rfl
    · rfl

theorem isErrorSet_of_error_eq {c c' : AgentCtx} (h : c'.error = c.error) :
    isErrorSet c' = isErrorSet c := by
  unfold isErrorSet
  rw [h]

/-- Every tool name the `CallTool` step actually pops is the head of the
pending list. -/
theorem callToolNode_log (registry : String → Option (AgentCtx → Option Json))
    (c : AgentCtx) (x : String) (hx : x ∈ (callToolNode registry c).2) :
    c.pendingTools.head? = some x := by
  unfold callToolNode at hx
  split at hx
  · cases hx
  · rename_i name remaining hp
    split at hx
    · split at hx
      all_goals
        simp only [List.mem_singleton] at hx
        subst hx
        simp [hp]
    · cases hx

theorem callToolNode_results_mono (registry : String → Option (AgentCtx → Option Json))
    (c : AgentCtx) (k : String) (hk : k ∈ keysOf c.toolResults) :
    k ∈ keysOf (callToolNode registry c).1.toolResults := by
  unfold callToolNode
  split
  · exact hk
  · split
    · split
      · exact mem_keysOf_setAssoc_of_mem _ _ _ _ hk
      · exact hk
    · exact hk

/-- When no error is set, `CheckTools` only pends names that are not yet in
the result map. -/
theorem checkToolsNode_pending_not_called (req : AgentCtx → Option (List String))
    (c : AgentCtx) (h : isErrorSet c = false) :
    ∀ t ∈ (checkToolsNode req c).pendingTools, t ∉ keysOf c.toolResults := by
  intro t ht
  rcases hreq : req c with _ | tools
  · simp only [checkToolsNode, h, Bool.false_eq_true, if_false, hreq] at ht
    cases ht
  · simp only [checkToolsNode, h, Bool.false_eq_true, if_false, hreq] at ht
    have := List.mem_filter.mp ht
    intro hmem
    have h2 := this.2
    simp only [Bool.not_eq_eq_eq_not, Bool.not_true, List.contains,
      List.elem_eq_mem, decide_eq_false_iff_not] at h2
    exact h2 hmem

/-- Counterexample to C4 as stated: a required tool whose `execute` raises
contributes no result, so the recomputed pending set contains it again and
its `execute` is entered a second time (and would be retried on every
iteration). -/
theorem tool_reinvoked_counterexample :
    ((runToolLoop (fun _ => some ["get_current_plan"])
        (fun n => if n = "get_current_plan" then some (fun _ => none) else none)
        2 (createInitialState { action := "generate_plan", sessionId := "s" })).2.count
      "get_current_plan" = 2) ∧
    ¬ ((runToolLoop (fun _ => some ["get_current_plan"])
        (fun n => if n = "get_current_plan" then some (fun _ => none) else none)
        2 (createInitialState { action := "generate_plan", sessionId := "s" })).2.count
      "get_current_plan" ≤ 1) := by
  constructor
  · rfl
  · intro h
    have : (2 : Nat) ≤ 1 := by
      exact le_of_eq_of_le (by rfl) h
    omega

/-- Once a tool's result is recorded, the loop never re-invokes it:
`CheckTools` filters it out of every later pending set. -/
theorem runToolLoop_no_reinvoke (req : AgentCtx → Option (List String))
    (registry : String → Option (AgentCtx → Option Json)) (name : String) :
    ∀ (fuel : Nat) (c : AgentCtx), isErrorSet c = false →
      name ∈ keysOf c.toolResults →
      (runToolLoop req registry fuel c).2.count name = 0 := by
  intro fuel
  induction fuel with
  | zero => intro c _ _; rfl
  | succ fuel ih =>
    intro c herr hmem
    simp only [runToolLoop]
    by_cases hpend : (checkToolsNode req c).pendingTools.isEmpty
    · simp [hpend]
    · simp only [hpend, Bool.false_eq_true, if_false]
      simp only [List.count_append]
      have herr1 : isErrorSet (checkToolsNode req c) = false := by
        rw [isErrorSet_of_error_eq (checkToolsNode_error req c)]
        exact herr
      have hmem1 : name ∈ keysOf (checkToolsNode req c).toolResults := by
        rw [checkToolsNode_toolResults]
        exact hmem
      have hstep0 : (callToolNode registry (checkToolsNode req c)).2.count name = 0 := by
        rw [List.count_eq_zero]
        intro hname
        have hhd := callToolNode_log registry (checkToolsNode req c) name hname
        rcases hp : (checkToolsNode req c).pendingTools with _ | ⟨hd, tl⟩
        · rw [hp] at hhd; cases hhd
        · rw [hp] at hhd
          simp only [List.head?_cons, Option.some.injEq] at hhd
          have hmem1x : name ∈ keysOf c.toolResults := by
            rw [← checkToolsNode_toolResults req c]
            exact hmem1
          exact checkToolsNode_pending_not_called req c herr name
            (by rw [hp, hhd]; exact List.mem_cons_self _ _) hmem1x
      rw [hstep0]
      have herr2 : isErrorSet (callToolNode registry (checkToolsNode req c)).1 = false := by
        rw [isErrorSet_of_error_eq (callToolNode_error registry _), herr1]
      have hmem2 : name ∈ keysOf (callToolNode registry (checkToolsNode req c)).1.toolResults :=
        callToolNode_results_mono registry _ name hmem1
      rw [ih _ herr2 hmem2]

/-- C4 (amended): in any run of the tool loop starting without an error, a
registered tool whose `execute` never raises is invoked at most once — its
result is recorded and the recomputed pending set filters it out.  (A tool
that raises, or an unregistered name, is re-pended and may be retried on
every iteration, which is what refutes the claim as stated.) -/
theorem tool_invoked_at_most_once (req : AgentCtx → Option (List String))
    (registry : String → Option (AgentCtx → Option Json)) (name : String)
    (tool : AgentCtx → Option Json) (hreg : registry name = some tool)
    (htotal : ∀ c, (tool c).isSome = true) :
    ∀ (fuel : Nat) (c : AgentCtx), isErrorSet c = false →
      (runToolLoop req registry fuel c).2.count name ≤ 1 := by
  intro fuel
  induction fuel with
  | zero => intro c _; simp [runToolLoop]
  | succ fuel ih =>
    intro c herr
    simp only [runToolLoop]
    by_cases hpend : (checkToolsNode req c).pendingTools.isEmpty
    · simp [hpend]
    · simp only [hpend, Bool.false_eq_true, if_false]
      simp only [List.count_append]
      have herr1 : isErrorSet (checkToolsNode req c) = false := by
        rw [isErrorSet_of_error_eq (checkToolsNode_error req c)]
        exact herr
      rcases hp : (checkToolsNode req c).pendingTools with _ | ⟨hd, tl⟩
      · rw [hp] at hpend; cases hpend rfl
      · by_cases hhd : hd = name
        · subst hhd
          obtain ⟨r, hr⟩ := Option.isSome_iff_exists.mp (htotal (checkToolsNode req c))
          have hcall : callToolNode registry (checkToolsNode req c) =
              ({ checkToolsNode req c with
                  toolResults := setAssoc (checkToolsNode req c).toolResults hd r,
                  pendingTools := tl }, [hd]) := by
            simp [callToolNode, hp, hreg, hr]
          rw [hcall]
          have herr2 : isErrorSet
              ({ checkToolsNode req c with
                  toolResults := setAssoc (checkToolsNode req c).toolResults hd r,
                  pendingTools := tl } : AgentCtx) = false := by
            rw [isErrorSet_of_error_eq (by rfl : ({ checkToolsNode req c with
                  toolResults := setAssoc (checkToolsNode req c).toolResults hd r,
                  pendingTools := tl } : AgentCtx).error = (checkToolsNode req c).error)]
            exact herr1
          have hmem2 : hd ∈ keysOf
              ({ checkToolsNode req c with
                  toolResults := setAssoc (checkToolsNode req c).toolResults hd r,
                  pendingTools := tl } : AgentCtx).toolResults :=
            self_mem_keysOf_setAssoc _ _ _
          rw [runToolLoop_no_reinvoke req registry hd fuel _ herr2 hmem2]
          simp
        · have hstep0 : (callToolNode registry (checkToolsNode req c)).2.count name = 0 := by
            rw [List.count_eq_zero]
            intro hname
            have hhd2 := callToolNode_log registry (checkToolsNode req c) name hname
            rw [hp] at hhd2
            simp only [List.head?_cons, Option.some.injEq] at hhd2
            exact hhd (hhd2.symm ▸ rfl)
          rw [hstep0]
          have herr2 : isErrorSet (callToolNode registry (checkToolsNode req c)).1 = false := by
            rw [isErrorSet_of_error_eq (callToolNode_error registry _), herr1]
          have := ih (callToolNode registry (checkToolsNode req c)).1 herr2
          omega

/-- Witness for `tool_invoked_at_most_once`: a total tool requested twice
is still invoked at most once. -/
theorem tool_invoked_at_most_once_witness :
    (runToolLoop (fun _ => some ["get_current_plan", "get_current_plan"])
        (fun n => if n = "get_current_plan" then some (fun _ => some Json.null) else none)
        3 (createInitialState { action := "generate_plan", sessionId := "s" })).2.count
      "get_current_plan" ≤ 1 := by
  exact tool_invoked_at_most_once
    (fun _ => some ["get_current_plan", "get_current_plan"])
    (fun n => if n = "get_current_plan" then some (fun _ => some Json.null) else none)
    "get_current_plan" (fun _ => some Json.null) (by rfl) (fun _ => rfl) 3
    (createInitialState { action := "generate_plan", sessionId := "s" }) (by rfl)

theorem shouldCheckTools_error (c : AgentCtx)
    (h : shouldCheckTools c = "check_tools") : isErrorSet c = false := by
  by_cases he : isErrorSet c
  · simp [shouldCheckTools, he] at h
  · simpa using he

/-- With no tools declared, one `CheckTools` pass empties the pending list
and the loop logs no invocation. -/
theorem runToolLoop_no_required (registry : String → Option (AgentCtx → Option Json))
    (fuel : Nat) (c : AgentCtx) (herr : isErrorSet c = false) :
    (runToolLoop coachRequiredTools registry fuel c).2 = [] := by
  cases fuel with
  | zero => rfl
  | succ fuel =>
    have hc1 : (checkToolsNode coachRequiredTools c).pendingTools = [] := by
      simp [checkToolsNode, herr, coachRequiredTools]
    simp [runToolLoop, hc1]

/-- C10: no registered action overrides `get_required_tools`, so every
request's `CheckTools` pass computes an empty pending set and no tool
`execute` is ever entered during a non-streaming run. -/
theorem no_tools_declared_none_invoked
    (memGet : AgentCtx → Option (String × List (String × Json) × List (String × Json)))
    (registry : String → Option (AgentCtx → Option Json))
    (exec : AgentCtx → Except String AgentCtx)
    (convRaises : Bool) (fuel : Nat) (c0 : AgentCtx) :
    (runAgentPipeline memGet coachRequiredTools registry exec convRaises fuel c0).2 = [] ∧
    (∀ c : AgentCtx, isErrorSet c = false →
      (checkToolsNode coachRequiredTools c).pendingTools = []) := by
  constructor
  · unfold runAgentPipeline pipelinePreExec
    by_cases h : shouldCheckTools (routeActionNode (retrieveMemoryNode memGet c0)) ==
        "check_tools"
    · simp only [h, if_true]
      exact runToolLoop_no_required registry fuel _
        (shouldCheckTools_error _ (eq_of_beq h))
    · simp only [Bool.not_eq_true] at h
      simp [h]
  · intro c herr
    simp [checkToolsNode, herr, coachRequiredTools]

/-- Witness for `no_tools_declared_none_invoked` on a concrete generate
request. -/
theorem no_tools_declared_none_invoked_witness :
    (runAgentPipeline (fun _ => none) coachRequiredTools (fun _ => none)
      (fun c => Except.ok c) false 4
      (createInitialState { action := "generate_plan", sessionId := "s" })).2 = [] ∧
    (checkToolsNode coachRequiredTools
      (createInitialState { action := "generate_plan", sessionId := "s" })).pendingTools
      = [] := by
  refine ⟨(no_tools_declared_none_invoked (fun _ => none) (fun _ => none)
      (fun c => Except.ok c) false 4
      (createInitialState { action := "generate_plan", sessionId := "s" })).1, ?_⟩
  exact (no_tools_declared_none_invoked (fun _ => none) (fun _ => none)
      (fun c => Except.ok c) false 4
      (createInitialState { action := "generate_plan", sessionId := "s" })).2
      (createInitialState { action := "generate_plan", sessionId := "s" }) (by rfl)

/-- Counterexample to C5 as stated: a run in which memory retrieval raises
(a MemoryError) and everything else succeeds returns `success = true` —
the failure is logged and swallowed, it does not produce a `success=false`
response as the claim requires of "every other error class". -/
theorem error_propagation_counterexample :
    (runAgent (fun _ => none) coachRequiredTools (fun _ => none)
      (fun c => Except.ok { c with responseMessage := "done" }) false 2
      (createInitialState
        { action := "modify_plan", sessionId := "s", planId := some "p",
          planData := some [("weeks", Json.arr [])],
          userMessage := some "hi" })).success = true ∧
    (runAgent (fun _ => none) coachRequiredTools (fun _ => none)
      (fun c => Except.ok { c with responseMessage := "done" }) false 2
      (createInitialState
        { action := "modify_plan", sessionId := "s", planId := some "p",
          planData := some [("weeks", Json.arr [])],
          userMessage := some "hi" })).message = "done" := ⟨rfl, rfl⟩

theorem route_error_msg (c : AgentCtx) (e : String)
    (h : route c = Except.error e) : e = "Unable to determine action from state" := by
  unfold route at h
  split at h
  · cases h
  · split at h
    · cases h
    · split at h
      · cases h
      · split at h
        · cases h
        · injection h with h2
          exact h2.symm

theorem retrieveMemoryNode_frame
    (memGet : AgentCtx → Option (String × List (String × Json) × List (String × Json)))
    (c : AgentCtx) :
    (retrieveMemoryNode memGet c).responseMessage = c.responseMessage ∧
    (retrieveMemoryNode memGet c).error = c.error ∧
    (retrieveMemoryNode memGet c).action = c.action := by
  unfold retrieveMemoryNode
  split <;> exact ⟨rfl, rfl, rfl⟩

theorem updateMemoryNode_error (convRaises : Bool) (c : AgentCtx) :
    (updateMemoryNode convRaises c).error = c.error := by
  unfold updateMemoryNode
  split
  · rfl
  · split
    · rfl
    · split
      · rfl
      · split
        · split
          · rfl
          · split
            · split <;> rfl
            · rfl
        · rfl

theorem updateMemoryNode_of_error (convRaises : Bool) (c : AgentCtx)
    (h : isErrorSet c = true) : updateMemoryNode convRaises c = c := by
  simp [updateMemoryNode, h]

theorem updateMemoryNode_toolResults (convRaises : Bool) (c : AgentCtx) :
    (updateMemoryNode convRaises c).toolResults = c.toolResults := by
  unfold updateMemoryNode
  split
  · rfl
  · split
    · rfl
    · split
      · rfl
      · split
        · split
          · rfl
          · split
            · split <;> rfl
            · rfl
        · rfl

theorem stateToResponse_success (a : String) (c : AgentCtx)
    (h : isErrorSet c = false) : (stateToResponse a c).success = true := by
  unfold stateToResponse
  rw [h]
  simp only [Bool.false_eq_true, if_false]
  split
  · rfl
  · split
    · rfl
    · split <;> rfl

/-- C5 (amended): a routing failure yields a `success=false` response
carrying the routing error (with whatever response message the state held,
possibly empty); a raising handler yields `success=false` with the
fallback message while preserving the accumulated tool results; a memory
retrieval failure is swallowed (the state passes through unchanged) and a
run whose handler succeeds returns `success=true` even after such a
failure; a raising or unregistered tool never sets the error field.  Only
these code paths decide success — no error class other than routing and
handler execution flips a response to `success=false`. -/
theorem error_propagation_amended
    (memGet : AgentCtx → Option (String × List (String × Json) × List (String × Json)))
    (req : AgentCtx → Option (List String))
    (registry : String → Option (AgentCtx → Option Json))
    (exec : AgentCtx → Except String AgentCtx)
    (convRaises : Bool) (fuel : Nat) (c0 : AgentCtx) :
    (∀ e, route (retrieveMemoryNode memGet c0) = Except.error e →
      runAgent memGet req registry exec convRaises fuel c0 =
        { success := false, message := c0.responseMessage, error := some e }) ∧
    (∀ e c3, (pipelinePreExec memGet req registry fuel c0).1 = c3 →
      isErrorSet c3 = false → exec c3 = Except.error e → e ≠ "" →
      runAgent memGet req registry exec convRaises fuel c0 =
        { success := false, message := executeFallbackMessage, error := some e } ∧
      (runAgentPipeline memGet req registry exec convRaises fuel c0).1.toolResults =
        c3.toolResults) ∧
    (memGet c0 = none → retrieveMemoryNode memGet c0 = c0) ∧
    (∀ r c3, (pipelinePreExec memGet req registry fuel c0).1 = c3 →
      isErrorSet c3 = false → exec c3 = Except.ok r → isErrorSet r = false →
      (runAgent memGet req registry exec convRaises fuel c0).success = true) ∧
    (∀ c : AgentCtx, (callToolNode registry c).1.error = c.error) := by
  refine ⟨?_, ?_, ?_, ?_, callToolNode_error registry⟩
  · intro e hroute
    have hmsg := route_error_msg _ _ hroute
    have hc2 : routeActionNode (retrieveMemoryNode memGet c0) =
        { retrieveMemoryNode memGet c0 with error := some e } := by
      unfold routeActionNode
      rw [hroute]
    have herr2 : isErrorSet ({ retrieveMemoryNode memGet c0 with error := some e } :
        AgentCtx) = true := by
      subst hmsg
      rfl
    have hpre : pipelinePreExec memGet req registry fuel c0 =
        ({ retrieveMemoryNode memGet c0 with error := some e }, []) := by
      unfold pipelinePreExec
      rw [hc2]
      have : shouldCheckTools ({ retrieveMemoryNode memGet c0 with error := some e } :
          AgentCtx) = "execute" := by
        unfold shouldCheckTools
        rw [herr2]
        rfl
      rw [this]
      rfl
    unfold runAgent runAgentPipeline
    rw [hpre]
    simp only
    rw [executeActionNode, if_pos herr2, updateMemoryNode_of_error _ _ herr2]
    unfold stateToResponse
    rw [herr2]
    simp only [if_true]
    have hrm := (retrieveMemoryNode_frame memGet c0).1
    simp [hrm]
  · intro e c3 hc3 herr3 hexec hne
    have hc4 : executeActionNode exec c3 =
        { c3 with error := some e, responseMessage := executeFallbackMessage } := by
      unfold executeActionNode
      rw [herr3]
      simp only [Bool.false_eq_true, if_false, hexec]
    have herr4 : isErrorSet
        ({ c3 with error := some e, responseMessage := executeFallbackMessage } :
          AgentCtx) = true := by
      have hb : (e != "") = true := bne_iff_ne.mpr hne
      simpa [isErrorSet] using hb
    constructor
    · unfold runAgent runAgentPipeline
      rw [hc3, hc4, updateMemoryNode_of_error _ _ herr4]
      unfold stateToResponse
      rw [herr4]
      rfl
    · unfold runAgentPipeline
      rw [hc3, hc4, updateMemoryNode_of_error _ _ herr4]
  · intro h
    unfold retrieveMemoryNode
    rw [h]
  · intro r c3 hc3 herr3 hexec herrR
    unfold runAgent runAgentPipeline
    rw [hc3]
    simp only
    rw [executeActionNode, if_neg (by rw [herr3]; exact fun hcontra => nomatch hcontra),
      hexec]
    have herr5 : isErrorSet (updateMemoryNode convRaises r) = false := by
      rw [isErrorSet_of_error_eq (updateMemoryNode_error convRaises r)]
      exact herrR
    exact stateToResponse_success _ _ herr5

/-- Witness for `error_propagation_amended`: a failing handler produces the
fallback `success=false` response; an unroutable request surfaces the
routing error; a failing memory retrieval is swallowed; a successful run
returns `success=true`. -/
theorem error_propagation_amended_witness :
    (runAgent (fun _ => none) (fun _ => some []) (fun _ => none)
        (fun _ => Except.error "boom") false 2
        (createInitialState
          { action := "modify_plan", sessionId := "s", planId := some "p",
            planData := some [("weeks", Json.arr [])],
            userMessage := some "hi" }) =
      { success := false, message := executeFallbackMessage, error := some "boom" }) ∧
    (runAgent (fun _ => none) (fun _ => some []) (fun _ => none)
        (fun _ => Except.error "x") false 2
        (createInitialState { action := "nope", sessionId := "s" }) =
      { success := false, message := "",
        error := some "Unable to determine action from state" }) ∧
    (retrieveMemoryNode (fun _ => none)
        (createInitialState { action := "nope", sessionId := "s" }) =
      createInitialState { action := "nope", sessionId := "s" }) ∧
    (runAgent (fun _ => none) (fun _ => some []) (fun _ => none)
        (fun c => Except.ok { c with responseMessage := "ok" }) false 2
        (createInitialState
          { action := "modify_plan", sessionId := "s", planId := some "p",
            planData := some [("weeks", Json.arr [])],
            userMessage := some "hi" })).success = true := by
  refine ⟨?_, ?_, ?_, ?_⟩
  · exact ((error_propagation_amended (fun _ => none) (fun _ => some [])
      (fun _ => none) (fun _ => Except.error "boom") false 2
      (createInitialState
        { action := "modify_plan", sessionId := "s", planId := some "p",
          planData := some [("weeks", Json.arr [])],
          userMessage := some "hi" })).2.1 "boom" _ rfl (by rfl) rfl
      (by decide)).1
  · exact (error_propagation_amended (fun _ => none) (fun _ => some [])
      (fun _ => none) (fun _ => Except.error "x") false 2
      (createInitialState { action := "nope", sessionId := "s" })).1
      "Unable to determine action from state" (by rfl)
  · exact (error_propagation_amended (fun _ => none) (fun _ => some [])
      (fun _ => none) (fun _ => Except.error "x") false 2
      (createInitialState { action := "nope", sessionId := "s" })).2.2.1 rfl
  · exact (error_propagation_amended (fun _ => none) (fun _ => some [])
      (fun _ => none) (fun c => Except.ok { c with responseMessage := "ok" }) false 2
      (createInitialState
        { action := "modify_plan", sessionId := "s", planId := some "p",
          planData := some [("weeks", Json.arr [])],
          userMessage := some "hi" })).2.2.2.1 _ _ rfl (by rfl) rfl (by rfl)

/-!
## The working (session) store

Embedding of `WorkingMemory` (`backend/app/services/memory/working.py`).
Time is an abstract `Nat` instant; `is_expired` compares the idle time
`now - last_accessed` against the TTL expressed in the same unit (the
Python code converts `ttl_minutes` with `timedelta`; the unit conversion
is irrelevant to the claims).  A `last_accessed` in the future gives idle
time `0` under `Nat` truncation, matching Python where a negative
`timedelta` never exceeds the TTL.  The per-store lock serialises access,
so each operation is modelled as an atomic function of the store. -/

structure SessionState where
  sessionId : String
  planId : Option String := none
  conversationHistory : List (String × String) := []
  context : List (String × Json) := []
  createdAt : Nat := 0
  lastAccessed : Nat := 0
deriving Repr

/-- `SessionState.is_expired`: idle strictly longer than the TTL. -/
def isExpired (ttl now : Nat) (s : SessionState) : Bool :=
  ttl < now - s.lastAccessed

/-- `WorkingMemory`: the session dict (unique keys) plus the configured TTL. -/
structure WorkingMemory where
  sessions : List (String × SessionState)
  ttl : Nat
deriving Repr

/-- Replace the value of an existing key in place, else append. -/
def updateEntry (l : List (String × SessionState)) (k : String) (v : SessionState) :
    List (String × SessionState) :=
  match l with
  | [] => [(k, v)]
  | (k', v') :: rest =>
    if k' = k then (k', v) :: rest else (k', v') :: updateEntry rest k v

/-- `WorkingMemory.get` (lines 59-80): a missing session yields `None`; an
expired one is deleted and yields `None`; otherwise the idle timer is
refreshed (`touch`) and the session returned. -/
def wmGet (now : Nat) (sid : String) (wm : WorkingMemory) :
    Option SessionState × WorkingMemory :=
  match wm.sessions.lookup sid with
  | none => (none, wm)
  | some s =>
    if isExpired wm.ttl now s then
      (none, { wm with sessions := wm.sessions.filter (fun p => !(p.1 == sid)) })
    else
      (some { s with lastAccessed := now },
        { wm with sessions := updateEntry wm.sessions sid { s with lastAccessed := now } })

/-- `WorkingMemory.cleanup_expired` (lines 252-271): collect the expired
session ids, delete them, and return how many were removed. -/
def wmCleanupExpired (now : Nat) (wm : WorkingMemory) : Nat × WorkingMemory :=
  ((wm.sessions.filter (fun p => isExpired wm.ttl now p.2)).length,
    { wm with sessions := wm.sessions.filter (fun p => !isExpired wm.ttl now p.2) })

theorem lookup_of_mem_nodup {β : Type _} :
    ∀ (l : List (String × β)) (k : String) (v : β),
    (k, v) ∈ l → (l.map Prod.fst).Nodup → l.lookup k = some v := by
  intro l
  induction l with
  | nil => intro k v h _; cases h
  | cons p rest ih =>
    intro k v h hnd
    obtain ⟨k', v'⟩ := p
    rcases List.mem_cons.mp h with heq | hmem2
    · injection heq with h1 h2
      subst h1
      subst h2
      simp [List.lookup_cons]
    · have hk : k ≠ k' := by
        intro hkk
        subst hkk
        have : k ∈ rest.map Prod.fst := List.mem_map.mpr ⟨(k, v), hmem2, rfl⟩
        exact (List.nodup_cons.mp hnd).1 this
      have hb : (k == k') = false := by simp [hk]
      rw [List.lookup_cons, hb]
      simpa using ih k v hmem2 (List.nodup_cons.mp hnd).2

theorem length_filter_partition {α : Type _} (l : List α) (p : α → Bool) :
    (l.filter p).length + (l.filter (fun a => !p a)).length = l.length := by
  induction l with
  | nil => rfl
  | cons x xs ih =>
    by_cases hp : p x <;> simp [List.filter, hp] <;> omega

/-- C8: an entry idle strictly longer than the TTL is unreachable via
`get` (and is dropped), and `cleanup_expired` removes exactly the expired
entries: it returns their count, the live-entry count drops by that count,
the entry in question is gone (so the count drops by at least the one for
that entry), and every non-expired entry survives. -/
theorem working_store_ttl_expiry (wm : WorkingMemory) (now : Nat) (sid : String)
    (s : SessionState) (hmem : (sid, s) ∈ wm.sessions)
    (hnodup : (wm.sessions.map Prod.fst).Nodup)
    (hexp : isExpired wm.ttl now s = true) :
    (wmGet now sid wm).1 = none ∧
    (wmCleanupExpired now wm).2.sessions.lookup sid = none ∧
    (wmCleanupExpired now wm).1 + (wmCleanupExpired now wm).2.sessions.length =
      wm.sessions.length ∧
    (wmCleanupExpired now wm).2.sessions.length < wm.sessions.length ∧
    (∀ p ∈ wm.sessions, (p ∈ (wmCleanupExpired now wm).2.sessions ↔
      isExpired wm.ttl now p.2 = false)) := by
  have hlk : wm.sessions.lookup sid = some s := lookup_of_mem_nodup _ _ _ hmem hnodup
  refine ⟨?_, ?_, ?_, ?_, ?_⟩
  · simp [wmGet, hlk, hexp]
  · rw [List.lookup_eq_none_iff]
    intro p hp
    have hmemp := List.mem_filter.mp hp
    have hne : p.1 ≠ sid := by
      intro hps
      have hps' : p = (sid, p.2) := by
        cases p
        simp only at hps
        subst hps
        rfl
      have hpss : p.2 = s := by
        have hl := lookup_of_mem_nodup wm.sessions sid p.2
          (hps' ▸ hmemp.1) hnodup
        rw [hlk] at hl
        injection hl with h2
        exact h2.symm
      have := hmemp.2
      rw [hpss] at this
      simp [hexp] at this
    simp [Ne.symm hne]
  · exact length_filter_partition wm.sessions (fun p => isExpired wm.ttl now p.2)
  · have hm : (sid, s) ∈ wm.sessions.filter (fun p => isExpired wm.ttl now p.2) :=
      List.mem_filter.mpr ⟨hmem, hexp⟩
    have h1 : 0 < (wm.sessions.filter (fun p => isExpired wm.ttl now p.2)).length :=
      List.length_pos_of_mem hm
    have := length_filter_partition wm.sessions (fun p => isExpired wm.ttl now p.2)
    simp only [wmCleanupExpired]
    omega
  · intro p hp
    constructor
    · intro hin
      have := (List.mem_filter.mp hin).2
      simpa using this
    · intro hne
      exact List.mem_filter.mpr ⟨hp, by simp [hne]⟩

/-- Witness for `working_store_ttl_expiry`: a two-session store with TTL
60 at instant 100; session "a" (last accessed at 0) is expired, session
"b" (last accessed at 100) is live. -/
theorem working_store_ttl_expiry_witness :
    (wmGet 100 "a"
      { sessions := [("a", { sessionId := "a" }),
          ("b", { sessionId := "b", lastAccessed := 100 })], ttl := 60 }).1 = none ∧
    (wmCleanupExpired 100
      { sessions := [("a", { sessionId := "a" }),
          ("b", { sessionId := "b", lastAccessed := 100 })], ttl := 60 }).2.sessions.lookup
      "a" = none ∧
    (wmCleanupExpired 100
      { sessions := [("a", { sessionId := "a" }),
          ("b", { sessionId := "b", lastAccessed := 100 })], ttl := 60 }).1 +
      (wmCleanupExpired 100
        { sessions := [("a", { sessionId := "a" }),
            ("b", { sessionId := "b", lastAccessed := 100 })], ttl := 60 }).2.sessions.length
      = 2 ∧
    (wmCleanupExpired 100
      { sessions := [("a", { sessionId := "a" }),
          ("b", { sessionId := "b", lastAccessed := 100 })], ttl := 60 }).2.sessions.length
      < 2 := by
  refine ⟨?_, ?_, ?_, ?_⟩
  · exact (working_store_ttl_expiry
      { sessions := [("a", { sessionId := "a" }),
          ("b", { sessionId := "b", lastAccessed := 100 })], ttl := 60 }
      100 "a" { sessionId := "a" } (List.mem_cons_self _ _) (by decide) (by decide)).1
  · exact (working_store_ttl_expiry
      { sessions := [("a", { sessionId := "a" }),
          ("b", { sessionId := "b", lastAccessed := 100 })], ttl := 60 }
      100 "a" { sessionId := "a" } (List.mem_cons_self _ _) (by decide) (by decide)).2.1
  · exact (working_store_ttl_expiry
      { sessions := [("a", { sessionId := "a" }),
          ("b", { sessionId := "b", lastAccessed := 100 })], ttl := 60 }
      100 "a" { sessionId := "a" } (List.mem_cons_self _ _) (by decide) (by decide)).2.2.1
  · exact (working_store_ttl_expiry
      { sessions := [("a", { sessionId := "a" }),
          ("b", { sessionId := "b", lastAccessed := 100 })], ttl := 60 }
      100 "a" { sessionId := "a" } (List.mem_cons_self _ _) (by decide)
      (by decide)).2.2.2.1

/-!
## Structured-payload extraction

Embedding of `ResponseParser.clean_json_string` (lines 58-83) and
`ResponseParser.parse_plan_update` (lines 162-218), over explicit
character lists.  `json.loads` is an opaque parameter `jparse`
(`none` models `json.JSONDecodeError`).  The regex searches in the code
use lazy groups delimited by fixed literals, so each one reduces to "the
text between the first occurrence of the opening literal that is followed
by the closing literal, and the first such closing occurrence", with the
`\s*` anchors absorbed by the surrounding `.strip()` calls. -/

/-- The ASCII whitespace characters of Python's `str.strip` (exotic
Unicode spaces do not occur in the modelled payloads). -/
def isPySpace (c : Char) : Bool :=
  c == ' ' || c == '\t' || c == '\n' || c == '\r' || c == '\x0b' || c == '\x0c'

/-- Python `str.strip()` on a character list. -/
def pyStripChars (cs : List Char) : List Char :=
  ((cs.dropWhile isPySpace).reverse.dropWhile isPySpace).reverse

/-- Python `str.strip()`. -/
def pyStrip (s : String) : String := (pyStripChars s.toList).asString

/-- Index of the first occurrence of `pat` (the `re.search` scan). -/
def findSub (pat : List Char) : List Char → Option Nat
  | [] => if pat.isEmpty then some 0 else none
  | c :: rest =>
    if pat.isPrefixOf (c :: rest) then some 0
    else (findSub pat rest).map (· + 1)

/-- Leftmost match of the lazy regex `patOpen([\s\S]*?)patClose`: the text
between the first occurrence of `patOpen` that is followed by `patClose`,
and the first such `patClose`. -/
def extractAfterFirst (patOpen patClose : List Char) : List Char → Option (List Char)
  | [] => none
  | c :: rest =>
    if patOpen.isPrefixOf (c :: rest) then
      match findSub patClose ((c :: rest).drop patOpen.length) with
      | some j => some (((c :: rest).drop patOpen.length).take j)
      | none => extractAfterFirst patOpen patClose rest
    else extractAfterFirst patOpen patClose rest

/-- The greedy regex `(\{[\s\S]*\})` of `clean_json_string`: from the
first opening brace to the *last* closing brace of the whole text (no
balance check). -/
def braceGreedySpan (s : List Char) : Option (List Char) :=
  match findSub ['\x7b'] s with
  | none => none
  | some i =>
    match findSub ['\x7d'] s.reverse with
    | none => none
    | some k =>
      let j := s.length - 1 - k
      if i < j then some ((s.drop i).take (j - i + 1)) else none

/-- The fenced block regex with the `json` label. -/
def extractFencedJson (s : List Char) : Option (List Char) :=
  extractAfterFirst "```json".toList "```".toList s

/-- The fenced block regex without a label. -/
def extractFencedAny (s : List Char) : Option (List Char) :=
  extractAfterFirst "```".toList "```".toList s

/-- `ResponseParser.clean_json_string` (lines 58-83): try a ```json fence,
then any fence, then the first-to-last brace span, else the stripped text
itself. -/
def cleanJsonString (s : String) : String :=
  match extractFencedJson s.toList with
  | some c => (pyStripChars c).asString
  | none =>
    match extractFencedAny s.toList with
    | some c => (pyStripChars c).asString
    | none =>
      match braceGreedySpan s.toList with
      | some c => (pyStripChars c).asString
      | none => pyStrip s

def planUpdateOpen : List Char := "---PLAN_UPDATE---".toList

def planUpdateClose : List Char := "---END_PLAN_UPDATE---".toList

/-- Leftmost marker-block match as an absolute span `(start, stop)`, the
stop index lying just past the closing marker (for `re.sub`). -/
def markerSpanAux (i : Nat) : List Char → Option (Nat × Nat)
  | [] => none
  | c :: rest =>
    if planUpdateOpen.isPrefixOf (c :: rest) then
      match findSub planUpdateClose ((c :: rest).drop planUpdateOpen.length) with
      | some j => some (i, i + planUpdateOpen.length + j + planUpdateClose.length)
      | none => markerSpanAux (i + 1) rest
    else markerSpanAux (i + 1) rest

/-- `re.sub(marker-pattern, "", content)`: delete the non-overlapping
marker blocks left to right (the fuel bounds the number of removals; one
removal consumes at least one character, so `s.length` suffices). -/
def removeMarkerBlocksAux : Nat → List Char → List Char
  | 0, s => s
  | Nat.succ fuel, s =>
    match markerSpanAux 0 s with
    | some (i, stop) => s.take i ++ removeMarkerBlocksAux fuel (s.drop stop)
    | none => s

def removeMarkerBlocks (s : List Char) : List Char := removeMarkerBlocksAux s.length s

/-- The `ParsedPlanUpdate` dataclass. -/
structure ParsedPlanUpdate where
  message : String
  updatedWeeks : Option (List Json) := none
  hasUpdate : Bool := false
deriving Repr

/-- `ResponseParser._extract_modified_weeks` (lines 220-229). -/
def extractModifiedWeeks : Json → Json
  | Json.arr xs => Json.arr xs
  | Json.obj o =>
    (match o.lookup "modifiedWeeks" with
    | some v => v
    | none =>
      match o.lookup "weeks" with
      | some v => v
      | none => Json.arr [])
  | _ => Json.arr []

/-- Python truthiness of a JSON value (`if not modified_weeks`). -/
def pyFalsy : Json → Bool
  | Json.null => true
  | Json.bool b => !b
  | Json.num n => n == 0
  | Json.str s => s.isEmpty
  | Json.arr xs => xs.isEmpty
  | Json.obj o => o.isEmpty

/-- A non-empty value handed to the `for m_week in modified_weeks` loop:
only a JSON array iterates into week objects; iterating any other
non-empty value raises before or at the first `m_week.get` call. -/
def weeksIterable : Json → Option (List Json)
  | Json.arr xs => some xs
  | _ => none

/-- `ResponseParser.parse_plan_update` (lines 162-218): gated on the
marker block; the marker content is cleaned and parsed; a missing block,
unparsable payload or falsy week list yields the stripped content as the
message with no update; otherwise the weeks are merged and the marker
blocks deleted from the message.  `none` models an exception escaping the
merge. -/
def parsePlanUpdate (jparse : String → Option Json) (content : String)
    (currentWeeks : List Json) : Option ParsedPlanUpdate :=
  match extractAfterFirst planUpdateOpen planUpdateClose content.toList with
  | none => some { message := pyStrip content }
  | some inner =>
    match jparse (cleanJsonString (pyStripChars inner).asString) with
    | none => some { message := pyStrip content }
    | some updateData =>
      if pyFalsy (extractModifiedWeeks updateData) then
        some { message := pyStrip content }
      else
        match weeksIterable (extractModifiedWeeks updateData) with
        | none => none
        | some mws =>
          match mergeWeeks currentWeeks mws with
          | none => none
          | some merged =>
            some { message := (pyStripChars (removeMarkerBlocks content.toList)).asString,
                   updatedWeeks := some merged, hasUpdate := true }

/-- The payload `parse_plan_update` actually submits to `json.loads`. -/
def extractPlanPayload (content : String) : Option String :=
  (extractAfterFirst planUpdateOpen planUpdateClose content.toList).map
    (fun inner => cleanJsonString (pyStripChars inner).asString)

/-- Balanced-brace scanner used only by the claim-side definition. -/
def scanBalanced : List Char → Nat → List Char → Option (List Char)
  | [], _, _ => none
  | c :: rest, d, acc =>
    if c == '\x7d' then
      if d = 1 then some ((c :: acc).reverse)
      else scanBalanced rest (d - 1) (c :: acc)
    else if c == '\x7b' then scanBalanced rest (d + 1) (c :: acc)
    else scanBalanced rest d (c :: acc)

/-- The first balanced brace-delimited substring. -/
def firstBalancedBraces : List Char → Option (List Char)
  | [] => none
  | c :: rest =>
    if c == '\x7b' then
      match scanBalanced rest 1 [c] with
      | some r => some r
      | none => firstBalancedBraces rest
    else firstBalancedBraces rest

/-- Modelled from the claim's words (C9): the asserted extraction
priority — first a fenced labelled block, then a marker-delimited block,
then the first balanced brace-delimited substring. -/
def specClaimedExtract (s : String) : Option String :=
  match extractFencedJson s.toList with
  | some c => some (pyStripChars c).asString
  | none =>
    match extractAfterFirst planUpdateOpen planUpdateClose s.toList with
    | some c => some (pyStripChars c).asString
    | none => (firstBalancedBraces s.toList).map List.asString

/-- Counterexample to C9 as stated: on text carrying both a fenced
labelled block and a marker block, the claimed priority picks the fenced
payload while `parse_plan_update` submits the marker payload; and on text
whose only candidates are braces, the code takes the greedy first-brace to
last-brace span (which is not balance-checked and here is not valid JSON),
not the first balanced substring. -/
theorem extraction_order_counterexample :
    specClaimedExtract
        "```json\n\x7b\"a\": 1\x7d\n```\n---PLAN_UPDATE---\n\x7b\"b\": 2\x7d\n---END_PLAN_UPDATE---" =
      some "\x7b\"a\": 1\x7d" ∧
    extractPlanPayload
        "```json\n\x7b\"a\": 1\x7d\n```\n---PLAN_UPDATE---\n\x7b\"b\": 2\x7d\n---END_PLAN_UPDATE---" =
      some "\x7b\"b\": 2\x7d" ∧
    (some "\x7b\"a\": 1\x7d" : Option String) ≠ some "\x7b\"b\": 2\x7d" ∧
    cleanJsonString "x \x7b\"a\": 1\x7d y \x7b\"b\": 2\x7d z" =
      "\x7b\"a\": 1\x7d y \x7b\"b\": 2\x7d" ∧
    (firstBalancedBraces ("x \x7b\"a\": 1\x7d y \x7b\"b\": 2\x7d z".toList)).map
        List.asString = some "\x7b\"a\": 1\x7d" := by
  refine ⟨by decide, by decide, by decide, by decide, by decide⟩

/-- C9 (amended): plan-update extraction is gated on the marker block —
without `---PLAN_UPDATE---…---END_PLAN_UPDATE---` no structured update is
attempted, even when fenced or braced JSON is present, and the stripped
content becomes the message.  Within the marker content the payload is
cleaned preferring a ```json fence, then any fence, then the greedy span
from the first brace to the last brace (not balance-checked), else the
stripped text itself.  A payload the JSON parser rejects yields no update
(message = full stripped content), never a partial result. -/
theorem extraction_marker_gated (jparse : String → Option Json)
    (content : String) (weeks : List Json) :
    (extractAfterFirst planUpdateOpen planUpdateClose content.toList = none →
      parsePlanUpdate jparse content weeks = some { message := pyStrip content }) ∧
    (∀ inner, extractAfterFirst planUpdateOpen planUpdateClose content.toList =
        some inner →
      jparse (cleanJsonString (pyStripChars inner).asString) = none →
      parsePlanUpdate jparse content weeks = some { message := pyStrip content }) ∧
    (∀ (t : String) (c : List Char), extractFencedJson t.toList = some c →
      cleanJsonString t = (pyStripChars c).asString) ∧
    (∀ (t : String) (c : List Char), extractFencedJson t.toList = none →
      extractFencedAny t.toList = some c →
      cleanJsonString t = (pyStripChars c).asString) ∧
    (∀ (t : String) (c : List Char), extractFencedJson t.toList = none →
      extractFencedAny t.toList = none → braceGreedySpan t.toList = some c →
      cleanJsonString t = (pyStripChars c).asString) ∧
    (∀ t : String, extractFencedJson t.toList = none →
      extractFencedAny t.toList = none → braceGreedySpan t.toList = none →
      cleanJsonString t = pyStrip t) := by
  refine ⟨?_, ?_, ?_, ?_, ?_, ?_⟩
  · intro h
    unfold parsePlanUpdate
    rw [h]
  · intro inner h hj
    unfold parsePlanUpdate
    rw [h]
    dsimp only
    rw [hj]
  · intro t c h
    unfold cleanJsonString
    rw [h]
  · intro t c h1 h2
    unfold cleanJsonString
    rw [h1, h2]
  · intro t c h1 h2 h3
    unfold cleanJsonString
    rw [h1, h2, h3]
  · intro t h1 h2 h3
    unfold cleanJsonString
    rw [h1, h2, h3]

/-- Witness for `extraction_marker_gated`: fenced JSON without markers
yields no update; a marker block whose payload the parser rejects yields
no update; a fenced-json block wins the cleaning cascade. -/
theorem extraction_marker_gated_witness :
    parsePlanUpdate (fun _ => some (Json.obj []))
        "```json\n\x7b\"weeks\": []\x7d\n```" [] =
      some { message := pyStrip "```json\n\x7b\"weeks\": []\x7d\n```" } ∧
    parsePlanUpdate (fun _ => none)
        "---PLAN_UPDATE---\nnot json\n---END_PLAN_UPDATE---" [] =
      some { message := pyStrip "---PLAN_UPDATE---\nnot json\n---END_PLAN_UPDATE---" } ∧
    cleanJsonString "```json\n\x7b\"a\": 1\x7d\n```\n\x7b\"b\": 2\x7d" =
      (pyStripChars "\n\x7b\"a\": 1\x7d\n".toList).asString := by
  refine ⟨?_, ?_, ?_⟩
  · exact (extraction_marker_gated (fun _ => some (Json.obj []))
      "```json\n\x7b\"weeks\": []\x7d\n```" []).1 (by decide)
  · exact (extraction_marker_gated (fun _ => none)
      "---PLAN_UPDATE---\nnot json\n---END_PLAN_UPDATE---" []).2.1
      "\nnot json\n".toList (by decide) rfl
  · exact (extraction_marker_gated (fun _ => some Json.null)
      "x" []).2.2.1 "```json\n\x7b\"a\": 1\x7d\n```\n\x7b\"b\": 2\x7d"
      "\n\x7b\"a\": 1\x7d\n".toList (by decide)

end MyCoach
